import Mathlib

/-!
A shallow embedding of the NVIC (interrupt controller) core of the
stm32-emulator repository (`src/peripherals/nvic.rs`), together with proofs
of the specification claims about it.

Modelling conventions:
* Machine integers are `Nat` (for the unsigned `u32`/`u64`/`u128` values) or
  `Int` (for the signed `i32` interrupt numbers), with explicit `% 2^w`
  truncation exactly where the Rust code performs an `as` cast.
* Fallible operations (Rust `assert!`, `unwrap`, `expect`, and checked
  arithmetic overflow, which all abort the emulator) are modelled with
  `Option`: `none` is the fatal outcome.  Arithmetic-overflow checks follow
  Rust's checked (debug) semantics: an out-of-range shift amount or an
  under/overflowing `u64` add/sub is fatal rather than wrapping.
* The CPU/memory facade (unicorn engine) is modelled as a register file
  `Reg → Nat` plus a byte memory `Nat → Option Nat`, where `none` means the
  address is unmapped and any access to it is fatal.
-/

/-- The ARM registers the NVIC core touches through the CPU facade. -/
inductive Reg where
  | r0 | r1 | r2 | r3 | r12
  | lr | pc | sp
  | xpsr | ipsr | primask
  | s0 | s1 | s2 | s3 | s4 | s5 | s6 | s7
  | s8 | s9 | s10 | s11 | s12 | s13 | s14 | s15
  | fpscr
deriving DecidableEq, Repr

/-- A register file: every register holds a `u64` value (unicorn's
`reg_read`/`reg_write` interface is 64 bit wide; the architectural registers
themselves only ever hold values below `2^32`). -/
def RegFile : Type := Reg → Nat

/-- Write one register of a register file. -/
def RegFile.write (regs : RegFile) (r : Reg) (v : Nat) : RegFile :=
  fun x => if x = r then v else regs x

/-- Byte-addressable emulated memory; `none` marks an unmapped address. -/
def Memory : Type := Nat → Option Nat

/-- The CPU facade: registers plus memory. -/
structure Cpu where
  regs : RegFile
  mem : Memory

/-- Write one byte (`mem_write` of a single byte): fatal (`none`) when the
address is unmapped, otherwise the byte is replaced. -/
def memWriteByte (m : Memory) (a v : Nat) : Option Memory :=
  match m a with
  | some _ => some (fun x => if x = a then some v else m x)
  | none => none

/-- Write a 4-byte little-endian word (`mem_write` of `v.to_le_bytes()`).
Fatal when any of the four byte addresses is unmapped. -/
def memWrite4 (m : Memory) (a v : Nat) : Option Memory := do
  let m ← memWriteByte m a (v % 256)
  let m ← memWriteByte m (a + 1) (v / 256 % 256)
  let m ← memWriteByte m (a + 2) (v / 65536 % 256)
  let m ← memWriteByte m (a + 3) (v / 16777216 % 256)
  pure m

/-- Read a 4-byte little-endian word (`mem_read` into a 4-byte buffer
followed by `u32::from_le_bytes`).  Fatal when any byte is unmapped. -/
def memRead4 (m : Memory) (a : Nat) : Option Nat := do
  let b0 ← m a
  let b1 ← m (a + 1)
  let b2 ← m (a + 2)
  let b3 ← m (a + 3)
  pure (b0 + 256 * b1 + 65536 * b2 + 16777216 * b3)

/-- The interrupt controller state (`struct Nvic`).  `pending` is the
`u128` pending bitmask; `last_systick_trigger` the `u64` instruction-counter
value at the last SysTick assertion. -/
structure Nvic where
  systick_period : Option Nat
  last_systick_trigger : Nat
  pending : Nat
  in_interrupt : Bool
deriving Repr, DecidableEq

/-- `const IRQ_OFFSET: i32 = 16`. -/
def IRQ_OFFSET : Int := 16

/-- `irq::PENDSV = -2`. -/
def PENDSV : Int := -2

/-- `irq::SYSTICK = -1`. -/
def SYSTICK : Int := -1

/-- `Nvic::set_intr_pending`.  The Rust code computes `bit = IRQ_OFFSET +
irq`, runs `assert!(bit > 0)` and then `pending |= 1 << bit` on the `u128`
mask; an assertion failure, or a shift amount outside `0..128` (a checked
arithmetic error in Rust), aborts the emulator, which we model as `none`. -/
def Nvic.set_intr_pending (nvic : Nvic) (irq : Int) : Option Nvic :=
  let bit : Int := IRQ_OFFSET + irq
  if bit > 0 then
    if bit < 128 then
      some { nvic with pending := nvic.pending ||| 2 ^ bit.toNat }
    else
      none
  else
    none

/-- Fuel-driven count of trailing zero bits; with fuel 128 this is exactly
`u128::trailing_zeros` (in particular it returns 128 on input 0). -/
def trailingZerosAux : Nat → Nat → Nat
  | 0, _ => 0
  | fuel + 1, n => if n % 2 = 1 then 0 else trailingZerosAux fuel (n / 2) + 1

/-- `u128::trailing_zeros`. -/
def u128TrailingZeros (n : Nat) : Nat := trailingZerosAux 128 n

/-- `Nvic::get_and_clear_next_intr_pending`: if the pending mask is nonzero,
take its lowest set bit, clear it (`pending &= !(1 << bit)`, the complement
taken on `u128`), and return `bit - IRQ_OFFSET`; otherwise return nothing. -/
def Nvic.get_and_clear_next_intr_pending (nvic : Nvic) : Option Int × Nvic :=
  if nvic.pending ≠ 0 then
    let bit := u128TrailingZeros nvic.pending
    let pending := nvic.pending &&& ((2 ^ 128 - 1) ^^^ 2 ^ bit)
    let irq : Int := (bit : Int) - IRQ_OFFSET
    (some irq, { nvic with pending := pending })
  else
    (none, nvic)

/-- `Nvic::maybe_set_systick_intr_pending`.  `n` is the current value of the
global `NUM_INSTRUCTIONS` counter (a `u64`); the subtraction
`n - last_systick_trigger` is `u64` arithmetic, fatal on underflow under
checked semantics. -/
def Nvic.maybe_set_systick_intr_pending (nvic : Nvic) (n : Nat) : Option Nvic :=
  match nvic.systick_period with
  | some systick_period =>
      if n < nvic.last_systick_trigger then
        none
      else
        if systick_period < n - nvic.last_systick_trigger then
          Nvic.set_intr_pending { nvic with last_systick_trigger := n } SYSTICK
        else
          some nvic
  | none => some nvic

/-- `Nvic::are_interrupts_disabled`: the PRIMASK register is nonzero. -/
def are_interrupts_disabled (cpu : Cpu) : Bool :=
  cpu.regs Reg.primask ≠ 0

/-- `Nvic::read_vector_addr`: compute `vector_table_addr +
4 * ((IRQ_OFFSET + irq) as u32)` in `u32` arithmetic (the `i32` addition and
the cast wrap as in Rust; the multiplication and the final addition are
fatal on overflow under checked semantics) and read a 4-byte little-endian
word there. -/
def read_vector_addr (m : Memory) (vector_table_addr : Nat) (irq : Int) : Option Nat :=
  if -(2 ^ 31) ≤ IRQ_OFFSET + irq ∧ IRQ_OFFSET + irq < 2 ^ 31 then
    let off : Nat := ((IRQ_OFFSET + irq) % (2 ^ 32)).toNat
    if 4 * off < 2 ^ 32 ∧ vector_table_addr + 4 * off < 2 ^ 32 then
      memRead4 m (vector_table_addr + 4 * off)
    else
      none
  else
    none

/-- `Nvic::CONTEXT_REGS`: the 25 registers of the exception frame, in push
order (pushed first = highest address). -/
def CONTEXT_REGS : List Reg :=
  [Reg.fpscr,
   Reg.s15, Reg.s14, Reg.s13, Reg.s12, Reg.s11, Reg.s10, Reg.s9, Reg.s8,
   Reg.s7, Reg.s6, Reg.s5, Reg.s4, Reg.s3, Reg.s2, Reg.s1, Reg.s0,
   Reg.xpsr, Reg.pc, Reg.lr, Reg.r12, Reg.r3, Reg.r2, Reg.r1, Reg.r0]

/-- The loop body of `Nvic::push_regs`: for each register in order, read it,
truncate to `u32` (`as u32`), decrement `sp` by 4 (fatal on `u64` underflow)
and write the 4 little-endian bytes at the new `sp`. -/
def pushList (regs : RegFile) : List Reg → Nat → Memory → Option (Nat × Memory)
  | [], sp, m => some (sp, m)
  | r :: rest, sp, m =>
      if sp < 4 then
        none
      else
        match memWrite4 m (sp - 4) (regs r % 4294967296) with
        | some m1 => pushList regs rest (sp - 4) m1
        | none => none

/-- `Nvic::push_regs`: run the push loop over `CONTEXT_REGS` starting from
the current SP, then write the final SP back. -/
def push_regs (cpu : Cpu) : Option Cpu := do
  let (sp, m) ← pushList cpu.regs CONTEXT_REGS (cpu.regs Reg.sp) cpu.mem
  pure { regs := RegFile.write cpu.regs Reg.sp sp, mem := m }

/-- The loop body of `Nvic::pop_regs`: for each register, read a 4-byte
little-endian word at `sp` (fatal on an unmapped byte), increment `sp` by 4
(fatal on `u64` overflow) and write the value to the register. -/
def popList : List Reg → Nat → Memory → RegFile → Option (Nat × RegFile)
  | [], sp, _, regs => some (sp, regs)
  | r :: rest, sp, m, regs =>
      match memRead4 m sp with
      | some v =>
          if 2 ^ 64 ≤ sp + 4 then
            none
          else
            popList rest (sp + 4) m (RegFile.write regs r v)
      | none => none

/-- `Nvic::pop_regs`: run the pop loop over `CONTEXT_REGS` in reverse order
starting from the current SP, then write the final SP back. -/
def pop_regs (cpu : Cpu) : Option Cpu := do
  let (sp, regs) ← popList CONTEXT_REGS.reverse (cpu.regs Reg.sp) cpu.mem cpu.regs
  pure { regs := RegFile.write regs Reg.sp sp, mem := cpu.mem }

/-- `Nvic::run_interrupt`: read the handler address from the vector table,
push the context frame, then set IPSR to `irq as u64` (the `i64 → u64` cast,
i.e. the two's-complement image of `irq`), PC to the handler address and LR
to the sentinel `0xFFFF_FFFD`, and mark the controller active. -/
def Nvic.run_interrupt (nvic : Nvic) (cpu : Cpu) (vector_table_addr : Nat)
    (irq : Int) : Option (Nvic × Cpu) := do
  let vector ← read_vector_addr cpu.mem vector_table_addr irq
  let cpu1 ← push_regs cpu
  let regs := RegFile.write cpu1.regs Reg.ipsr (irq % (2 ^ 64)).toNat
  let regs := RegFile.write regs Reg.pc vector
  let regs := RegFile.write regs Reg.lr 0xFFFFFFFD
  pure ({ nvic with in_interrupt := true }, { regs := regs, mem := cpu1.mem })

/-- `Nvic::run_pending_interrupts`: update SysTick pending state first, then
bail out if interrupts are disabled or an exception is already being
serviced, otherwise take the lowest pending interrupt (if any) and run it. -/
def Nvic.run_pending_interrupts (nvic : Nvic) (cpu : Cpu) (vector_table_addr : Nat)
    (n : Nat) : Option (Nvic × Cpu) :=
  match Nvic.maybe_set_systick_intr_pending nvic n with
  | none => none
  | some nvic1 =>
      if are_interrupts_disabled cpu || nvic1.in_interrupt then
        some (nvic1, cpu)
      else
        match Nvic.get_and_clear_next_intr_pending nvic1 with
        | (some irq, nvic2) => Nvic.run_interrupt nvic2 cpu vector_table_addr irq
        | (none, nvic2) => some (nvic2, cpu)

/-- `Nvic::return_from_interrupt`: pop the context frame and clear the
active flag. -/
def Nvic.return_from_interrupt (nvic : Nvic) (cpu : Cpu) : Option (Nvic × Cpu) := do
  let cpu1 ← pop_regs cpu
  pure ({ nvic with in_interrupt := false }, cpu1)

/-! ### Byte-memory lemmas -/

theorem memWriteByte_isSome (m : Memory) (a v : Nat) (h : (m a).isSome) :
    ∃ m1, memWriteByte m a v = some m1 := by
  unfold memWriteByte
  cases hm : m a with
  | none => rw [hm] at h; exact absurd h (by simp)
  | some b => exact ⟨_, rfl⟩

theorem memWriteByte_mapped (m m1 : Memory) (a v : Nat)
    (h : memWriteByte m a v = some m1) : (m a).isSome := by
  unfold memWriteByte at h
  cases hm : m a with
  | none => rw [hm] at h; exact absurd h (by simp)
  | some b => simp

theorem memWriteByte_eq (m m1 : Memory) (a v : Nat)
    (h : memWriteByte m a v = some m1) :
    m1 = fun x => if x = a then some v else m x := by
  unfold memWriteByte at h
  cases hm : m a with
  | none => rw [hm] at h; exact absurd h (by simp)
  | some b => rw [hm] at h; exact (Option.some_injective _ h).symm

theorem memWriteByte_domain (m m1 : Memory) (a v : Nat)
    (h : memWriteByte m a v = some m1) (x : Nat) : (m1 x).isSome = (m x).isSome := by
  rw [memWriteByte_eq m m1 a v h]
  by_cases hx : x = a
  · subst hx
    have := memWriteByte_mapped m m1 x v h
    simp [this]
  · simp [hx]

theorem memWriteByte_read_ne (m m1 : Memory) (a v x : Nat)
    (h : memWriteByte m a v = some m1) (hx : x ≠ a) : m1 x = m x := by
  rw [memWriteByte_eq m m1 a v h]
  simp [hx]

theorem memWriteByte_read_eq (m m1 : Memory) (a v : Nat)
    (h : memWriteByte m a v = some m1) : m1 a = some v := by
  rw [memWriteByte_eq m m1 a v h]
  simp

/-! ### 4-byte word lemmas -/

theorem memWrite4_spec (m : Memory) (a v : Nat)
    (h0 : (m a).isSome) (h1 : (m (a + 1)).isSome)
    (h2 : (m (a + 2)).isSome) (h3 : (m (a + 3)).isSome) :
    ∃ m4, memWrite4 m a v = some m4
      ∧ (∀ x, (m4 x).isSome = (m x).isSome)
      ∧ (∀ x, x < a ∨ a + 4 ≤ x → m4 x = m x)
      ∧ m4 a = some (v % 256)
      ∧ m4 (a + 1) = some (v / 256 % 256)
      ∧ m4 (a + 2) = some (v / 65536 % 256)
      ∧ m4 (a + 3) = some (v / 16777216 % 256) := by
  obtain ⟨m1, e1⟩ := memWriteByte_isSome m a (v % 256) h0
  have d1 := memWriteByte_domain m m1 a (v % 256) e1
  obtain ⟨m2, e2⟩ := memWriteByte_isSome m1 (a + 1) (v / 256 % 256) ((d1 _).trans h1)
  have d2 := memWriteByte_domain m1 m2 (a + 1) (v / 256 % 256) e2
  obtain ⟨m3, e3⟩ := memWriteByte_isSome m2 (a + 2) (v / 65536 % 256)
    (((d2 _).trans (d1 _)).trans h2)
  have d3 := memWriteByte_domain m2 m3 (a + 2) (v / 65536 % 256) e3
  obtain ⟨m4, e4⟩ := memWriteByte_isSome m3 (a + 3) (v / 16777216 % 256)
    ((((d3 _).trans (d2 _)).trans (d1 _)).trans h3)
  have d4 := memWriteByte_domain m3 m4 (a + 3) (v / 16777216 % 256) e4
  refine ⟨m4, ?_, ?_, ?_, ?_, ?_, ?_, ?_⟩
  · simp [memWrite4, e1, e2, e3, e4]
  · intro x
    exact (((d4 x).trans (d3 x)).trans (d2 x)).trans (d1 x)
  · intro x hx
    have n0 : x ≠ a := by omega
    have n1 : x ≠ a + 1 := by omega
    have n2 : x ≠ a + 2 := by omega
    have n3 : x ≠ a + 3 := by omega
    rw [memWriteByte_read_ne m3 m4 _ _ _ e4 n3, memWriteByte_read_ne m2 m3 _ _ _ e3 n2,
      memWriteByte_read_ne m1 m2 _ _ _ e2 n1, memWriteByte_read_ne m m1 _ _ _ e1 n0]
  · rw [memWriteByte_read_ne m3 m4 _ _ _ e4 (by omega),
      memWriteByte_read_ne m2 m3 _ _ _ e3 (by omega),
      memWriteByte_read_ne m1 m2 _ _ _ e2 (by omega)]
    exact memWriteByte_read_eq m m1 _ _ e1
  · rw [memWriteByte_read_ne m3 m4 _ _ _ e4 (by omega),
      memWriteByte_read_ne m2 m3 _ _ _ e3 (by omega)]
    exact memWriteByte_read_eq m1 m2 _ _ e2
  · rw [memWriteByte_read_ne m3 m4 _ _ _ e4 (by omega)]
    exact memWriteByte_read_eq m2 m3 _ _ e3
  · exact memWriteByte_read_eq m3 m4 _ _ e4

theorem memWrite4_mapped (m m4 : Memory) (a v : Nat)
    (h : memWrite4 m a v = some m4) :
    (m a).isSome ∧ (m (a + 1)).isSome ∧ (m (a + 2)).isSome ∧ (m (a + 3)).isSome := by
  unfold memWrite4 at h
  cases e1 : memWriteByte m a (v % 256) with
  | none => simp [e1, Option.bind_eq_bind] at h
  | some m1 =>
  simp only [e1, Option.bind_eq_bind, Option.some_bind] at h
  cases e2 : memWriteByte m1 (a + 1) (v / 256 % 256) with
  | none => simp [e2, Option.bind_eq_bind] at h
  | some m2 =>
  simp only [e2, Option.bind_eq_bind, Option.some_bind] at h
  cases e3 : memWriteByte m2 (a + 2) (v / 65536 % 256) with
  | none => simp [e3, Option.bind_eq_bind] at h
  | some m3 =>
  simp only [e3, Option.bind_eq_bind, Option.some_bind] at h
  cases e4 : memWriteByte m3 (a + 3) (v / 16777216 % 256) with
  | none => simp [e4, Option.bind_eq_bind] at h
  | some mm =>
  have d1 := memWriteByte_domain m m1 a _ e1
  have d2 := memWriteByte_domain m1 m2 (a + 1) _ e2
  have d3 := memWriteByte_domain m2 m3 (a + 2) _ e3
  refine ⟨memWriteByte_mapped m m1 a _ e1, ?_, ?_, ?_⟩
  · exact (d1 _).symm.trans (memWriteByte_mapped m1 m2 _ _ e2)
  · exact ((d2 _).trans (d1 _)).symm.trans (memWriteByte_mapped m2 m3 _ _ e3)
  · exact (((d3 _).trans (d2 _)).trans (d1 _)).symm.trans (memWriteByte_mapped m3 mm _ _ e4)

theorem memWrite4_domain (m m4 : Memory) (a v : Nat)
    (h : memWrite4 m a v = some m4) (x : Nat) : (m4 x).isSome = (m x).isSome := by
  obtain ⟨h0, h1, h2, h3⟩ := memWrite4_mapped m m4 a v h
  obtain ⟨m4x, e, dom, _⟩ := memWrite4_spec m a v h0 h1 h2 h3
  rw [e] at h
  exact (Option.some_injective _ h) ▸ dom x

theorem memRead4_eq (m : Memory) (a b0 b1 b2 b3 : Nat)
    (h0 : m a = some b0) (h1 : m (a + 1) = some b1)
    (h2 : m (a + 2) = some b2) (h3 : m (a + 3) = some b3) :
    memRead4 m a = some (b0 + 256 * b1 + 65536 * b2 + 16777216 * b3) := by
  simp [memRead4, h0, h1, h2, h3]

theorem memRead4_mapped (m : Memory) (a v : Nat) (h : memRead4 m a = some v) :
    (m a).isSome ∧ (m (a + 1)).isSome ∧ (m (a + 2)).isSome ∧ (m (a + 3)).isSome := by
  unfold memRead4 at h
  cases e0 : m a with
  | none => simp [e0, Option.bind_eq_bind] at h
  | some b0 =>
  simp only [e0, Option.bind_eq_bind, Option.some_bind] at h
  cases e1 : m (a + 1) with
  | none => simp [e1, Option.bind_eq_bind] at h
  | some b1 =>
  simp only [e1, Option.bind_eq_bind, Option.some_bind] at h
  cases e2 : m (a + 2) with
  | none => simp [e2, Option.bind_eq_bind] at h
  | some b2 =>
  simp only [e2, Option.bind_eq_bind, Option.some_bind] at h
  cases e3 : m (a + 3) with
  | none => simp [e3, Option.bind_eq_bind] at h
  | some b3 => simp [e0, e1, e2, e3]

theorem memRead4_congr (m m1 : Memory) (a : Nat)
    (h0 : m1 a = m a) (h1 : m1 (a + 1) = m (a + 1))
    (h2 : m1 (a + 2) = m (a + 2)) (h3 : m1 (a + 3) = m (a + 3)) :
    memRead4 m1 a = memRead4 m a := by
  unfold memRead4
  rw [h0, h1, h2, h3]

theorem le_bytes_recombine (v : Nat) :
    v % 256 + 256 * (v / 256 % 256) + 65536 * (v / 65536 % 256)
      + 16777216 * (v / 16777216 % 256) = v % 4294967296 := by
  omega

theorem memWrite4_read_back (m m4 : Memory) (a v : Nat)
    (h : memWrite4 m a v = some m4) :
    memRead4 m4 a = some (v % 4294967296) := by
  obtain ⟨h0, h1, h2, h3⟩ := memWrite4_mapped m m4 a v h
  obtain ⟨m4x, e, _, _, r0, r1, r2, r3⟩ := memWrite4_spec m a v h0 h1 h2 h3
  rw [e] at h
  obtain rfl := Option.some_injective _ h
  rw [memRead4_eq m4x a _ _ _ _ r0 r1 r2 r3, le_bytes_recombine]

/-! ### Push-loop specification -/

theorem pushList_spec (regs : RegFile) (l : List Reg) :
    ∀ sp m, 4 * l.length ≤ sp →
    (∀ a, a < sp → sp - 4 * l.length ≤ a → (m a).isSome) →
    ∃ m1, pushList regs l sp m = some (sp - 4 * l.length, m1)
      ∧ (∀ x, (m1 x).isSome = (m x).isSome)
      ∧ (∀ x, x < sp - 4 * l.length ∨ sp ≤ x → m1 x = m x)
      ∧ (∀ j, (hj : j < l.length) →
          memRead4 m1 (sp - 4 * (j + 1))
            = some (regs (l.get ⟨j, hj⟩) % 4294967296)) := by
  induction l with
  | nil =>
      intro sp m _ _
      refine ⟨m, by simp [pushList], fun x => rfl, fun x _ => rfl, ?_⟩
      intro j hj
      exact absurd hj (by simp)
  | cons r rest ih =>
      intro sp m hsp hmap
      have hlen : (r :: rest).length = rest.length + 1 := rfl
      have hsp4 : 4 ≤ sp := by
        rw [hlen] at hsp; omega
      have h0 : (m (sp - 4)).isSome := hmap _ (by omega) (by rw [hlen]; omega)
      have h1 : (m (sp - 4 + 1)).isSome := hmap _ (by omega) (by rw [hlen]; omega)
      have h2 : (m (sp - 4 + 2)).isSome := hmap _ (by omega) (by rw [hlen]; omega)
      have h3 : (m (sp - 4 + 3)).isSome := hmap _ (by omega) (by rw [hlen]; omega)
      obtain ⟨mw, ew, domw, framew, _⟩ :=
        memWrite4_spec m (sp - 4) (regs r % 4294967296) h0 h1 h2 h3
      have hrec := ih (sp - 4) mw (by rw [hlen] at hsp; omega)
        (fun a ha hb => (domw a).symm ▸ hmap a (by omega) (by rw [hlen]; omega))
      obtain ⟨m1, e1, dom1, frame1, slots1⟩ := hrec
      have espr : sp - 4 - 4 * rest.length = sp - 4 * (r :: rest).length := by
        rw [hlen]; omega
      refine ⟨m1, ?_, ?_, ?_, ?_⟩
      · show pushList regs (r :: rest) sp m = _
        unfold pushList
        rw [if_neg (by omega), ew]
        show pushList regs rest (sp - 4) mw = _
        rw [e1, espr]
      · intro x
        exact (dom1 x).trans (domw x)
      · intro x hx
        have hx1 : x < sp - 4 - 4 * rest.length ∨ sp - 4 ≤ x := by
          rw [hlen] at hx; omega
        have hx2 : x < sp - 4 ∨ sp - 4 + 4 ≤ x := by
          rcases hx with hx | hx
          · left; rw [hlen] at hx; omega
          · right; omega
        rw [frame1 x hx1, framew x hx2]
      · intro j hj
        match j with
        | 0 =>
            have hagree : ∀ k, k < 4 → m1 (sp - 4 + k) = mw (sp - 4 + k) := by
              intro k hk
              exact frame1 _ (Or.inr (by omega))
            have : memRead4 m1 (sp - 4) = memRead4 mw (sp - 4) := by
              apply memRead4_congr
              · have := hagree 0 (by omega); simpa using this
              · exact hagree 1 (by omega)
              · exact hagree 2 (by omega)
              · exact hagree 3 (by omega)
            rw [show sp - 4 * (0 + 1) = sp - 4 by omega, this]
            have := memWrite4_read_back m mw (sp - 4) (regs r % 4294967296) ew
            rw [this]
            congr 1
            show regs r % 4294967296 % 4294967296 = regs r % 4294967296
            omega
        | j + 1 =>
            have hj' : j < rest.length := by
              rw [hlen] at hj; omega
            have := slots1 j hj'
            rw [show sp - 4 - 4 * (j + 1) = sp - 4 * (j + 1 + 1) by omega] at this
            exact this

theorem pushList_mapped (regs : RegFile) (l : List Reg) :
    ∀ sp m sp1 m1, pushList regs l sp m = some (sp1, m1) →
    4 * l.length ≤ sp ∧ sp1 = sp - 4 * l.length
      ∧ (∀ a, a < sp → sp - 4 * l.length ≤ a → (m a).isSome) := by
  induction l with
  | nil =>
      intro sp m sp1 m1 h
      simp only [pushList, Option.some_inj, Prod.mk.injEq] at h
      refine ⟨by simp, ?_, ?_⟩
      · rw [← h.1]
        simp
      · intro a ha hb
        simp only [List.length_nil, Nat.mul_zero, Nat.sub_zero] at hb
        exact absurd ha (by omega)
  | cons r rest ih =>
      intro sp m sp1 m1 h
      unfold pushList at h
      by_cases hsp : sp < 4
      · rw [if_pos hsp] at h
        exact absurd h (by simp)
      rw [if_neg hsp] at h
      cases ew : memWrite4 m (sp - 4) (regs r % 4294967296) with
      | none => rw [ew] at h; exact absurd h (by simp)
      | some mw =>
      rw [ew] at h
      obtain ⟨hle, hsp1, hmap⟩ := ih (sp - 4) mw sp1 m1 h
      obtain ⟨w0, w1, w2, w3⟩ := memWrite4_mapped m mw (sp - 4) _ ew
      have hlen : (r :: rest).length = rest.length + 1 := rfl
      have dw := memWrite4_domain m mw (sp - 4) _ ew
      refine ⟨by rw [hlen]; omega, by rw [hlen]; omega, ?_⟩
      intro a ha hb
      rw [hlen] at hb
      by_cases haw : sp - 4 ≤ a
      · have hcase : a = sp - 4 ∨ a = sp - 3 ∨ a = sp - 2 ∨ a = sp - 1 := by omega
        rcases hcase with rfl | rfl | rfl | rfl
        · exact w0
        · rw [show sp - 4 + 1 = sp - 3 by omega] at w1; exact w1
        · rw [show sp - 4 + 2 = sp - 2 by omega] at w2; exact w2
        · rw [show sp - 4 + 3 = sp - 1 by omega] at w3; exact w3
      · have := hmap a (by omega) (by omega)
        rw [dw a] at this
        exact this

/-! ### Pop-loop specification -/

theorem popList_spec (l : List Reg) :
    ∀ sp m regs (vals : Nat → Nat),
    (∀ j, j < l.length → memRead4 m (sp + 4 * j) = some (vals j)) →
    sp + 4 * l.length < 2 ^ 64 →
    ∃ regs1, popList l sp m regs = some (sp + 4 * l.length, regs1)
      ∧ (∀ r, r ∉ l → regs1 r = regs r)
      ∧ (∀ j, (hj : j < l.length) →
          (∀ k, (hk : k < l.length) → j < k → l.get ⟨k, hk⟩ ≠ l.get ⟨j, hj⟩) →
          regs1 (l.get ⟨j, hj⟩) = vals j) := by
  induction l with
  | nil =>
      intro sp m regs vals _ _
      refine ⟨regs, by simp [popList], fun r _ => rfl, ?_⟩
      intro j hj
      exact absurd hj (by simp)
  | cons r rest ih =>
      intro sp m regs vals hvals hsp
      have hlen : (r :: rest).length = rest.length + 1 := rfl
      have hv0 : memRead4 m sp = some (vals 0) := by
        have := hvals 0 (by simp)
        rwa [Nat.mul_zero, Nat.add_zero] at this
      have hrec := ih (sp + 4) m (RegFile.write regs r (vals 0)) (fun j => vals (j + 1))
        (fun j hj => by
          have := hvals (j + 1) (by rw [hlen]; omega)
          rwa [show sp + 4 * (j + 1) = sp + 4 + 4 * j by omega] at this)
        (by rw [hlen] at hsp; omega)
      obtain ⟨regs1, e1, notin1, slots1⟩ := hrec
      refine ⟨regs1, ?_, ?_, ?_⟩
      · show popList (r :: rest) sp m regs = _
        unfold popList
        rw [hv0]
        show (if 2 ^ 64 ≤ sp + 4 then none
            else popList rest (sp + 4) m (RegFile.write regs r (vals 0)))
          = some (sp + 4 * (r :: rest).length, regs1)
        rw [if_neg (by rw [hlen] at hsp; omega), e1]
        congr 2
        rw [hlen]
        omega
      · intro q hq
        have hne : q ≠ r := fun h => hq (h ▸ List.mem_cons_self r rest)
        have hnin : q ∉ rest := fun h => hq (List.mem_cons_of_mem r h)
        rw [notin1 q hnin]
        simp [RegFile.write, hne]
      · intro j hj hside
        match j with
        | 0 =>
            have hrn : r ∉ rest := by
              intro hmem
              obtain ⟨⟨k, hk⟩, hget⟩ := List.mem_iff_get.mp hmem
              exact hside (k + 1) (by rw [hlen]; omega) (by omega) hget
            show regs1 r = vals 0
            rw [notin1 r hrn]
            simp [RegFile.write]
        | j + 1 =>
            have hj' : j < rest.length := by rw [hlen] at hj; omega
            have := slots1 j hj' (fun k hk hjk => hside (k + 1) (by rw [hlen]; omega)
              (by omega))
            exact this

theorem popList_mapped (l : List Reg) :
    ∀ sp m regs sp1 regs1, popList l sp m regs = some (sp1, regs1) →
    ∀ a, sp ≤ a → a < sp + 4 * l.length → (m a).isSome := by
  induction l with
  | nil =>
      intro sp m regs sp1 regs1 _ a ha hb
      simp only [List.length_nil, Nat.mul_zero, Nat.add_zero] at hb
      exact absurd hb (by omega)
  | cons r rest ih =>
      intro sp m regs sp1 regs1 h a ha hb
      unfold popList at h
      cases er : memRead4 m sp with
      | none => rw [er] at h; exact absurd h (by simp)
      | some v =>
      rw [er] at h
      replace h : (if 2 ^ 64 ≤ sp + 4 then none
          else popList rest (sp + 4) m (RegFile.write regs r v)) = some (sp1, regs1) := h
      by_cases hof : 2 ^ 64 ≤ sp + 4
      · rw [if_pos hof] at h
        exact absurd h (by simp)
      rw [if_neg hof] at h
      obtain ⟨r0, r1, r2, r3⟩ := memRead4_mapped m sp v er
      by_cases hlow : a < sp + 4
      · have hcase : a = sp ∨ a = sp + 1 ∨ a = sp + 2 ∨ a = sp + 3 := by omega
        rcases hcase with rfl | rfl | rfl | rfl
        · exact r0
        · exact r1
        · exact r2
        · exact r3
      · have hlen : (r :: rest).length = rest.length + 1 := rfl
        exact ih (sp + 4) m (RegFile.write regs r v) sp1 regs1 h a (by omega)
          (by rw [hlen] at hb; omega)

/-! ### Trailing-zeros and bitmask lemmas -/

theorem trailingZerosAux_spec : ∀ fuel n, n ≠ 0 → n < 2 ^ fuel →
    n.testBit (trailingZerosAux fuel n) = true
      ∧ ∀ j, j < trailingZerosAux fuel n → n.testBit j = false := by
  intro fuel
  induction fuel with
  | zero =>
      intro n hn hlt
      exact absurd hlt (by simpa using hn)
  | succ fuel ih =>
      intro n hn hlt
      unfold trailingZerosAux
      by_cases hodd : n % 2 = 1
      · rw [if_pos hodd]
        refine ⟨by simp [Nat.testBit_zero, hodd], ?_⟩
        intro j hj
        exact absurd hj (by omega)
      · rw [if_neg hodd]
        have hn2 : n / 2 ≠ 0 := by omega
        have hlt2 : n / 2 < 2 ^ fuel := by
          rw [pow_succ] at hlt
          omega
        obtain ⟨h1, h2⟩ := ih (n / 2) hn2 hlt2
        refine ⟨by rw [Nat.testBit_add_one]; exact h1, ?_⟩
        intro j hj
        match j with
        | 0 => simp [Nat.testBit_zero, hodd]
        | j + 1 =>
            rw [Nat.testBit_add_one]
            exact h2 j (by omega)

theorem u128TrailingZeros_spec (n : Nat) (hn : n ≠ 0) (hlt : n < 2 ^ 128) :
    n.testBit (u128TrailingZeros n) = true
      ∧ ∀ j, j < u128TrailingZeros n → n.testBit j = false :=
  trailingZerosAux_spec 128 n hn hlt

theorem u128TrailingZeros_lt (n : Nat) (hn : n ≠ 0) (hlt : n < 2 ^ 128) :
    u128TrailingZeros n < 128 := by
  by_contra hge
  have h1 := (u128TrailingZeros_spec n hn hlt).1
  have h2 : n.testBit (u128TrailingZeros n) = false :=
    Nat.testBit_lt_two_pow
      (lt_of_lt_of_le hlt (Nat.pow_le_pow_right (by omega) (by omega)))
  rw [h1] at h2
  exact Bool.noConfusion h2

theorem clearBit_testBit (n b : Nat) (hn : n < 2 ^ 128) (hb : b < 128) (i : Nat) :
    (n &&& ((2 ^ 128 - 1) ^^^ 2 ^ b)).testBit i = (n.testBit i && decide (i ≠ b)) := by
  rw [Nat.testBit_and, Nat.testBit_xor, Nat.testBit_two_pow_sub_one, Nat.testBit_two_pow]
  by_cases hi : i < 128
  · by_cases hib : b = i
    · subst hib
      simp [hi]
    · have : i ≠ b := fun h => hib h.symm
      simp [hi, hib, this]
  · have hz : n.testBit i = false :=
      Nat.testBit_lt_two_pow
        (lt_of_lt_of_le hn (Nat.pow_le_pow_right (by omega) (by omega)))
    simp [hz]

/-- Packaged behaviour of `get_and_clear_next_intr_pending` on a nonzero
pending mask: it selects the lowest set bit, returns `bit - 16`, and clears
exactly that bit. -/
theorem get_and_clear_spec (nvic : Nvic) (hne : nvic.pending ≠ 0)
    (hlt : nvic.pending < 2 ^ 128) :
    ∃ bit, bit = u128TrailingZeros nvic.pending ∧ bit < 128
      ∧ nvic.pending.testBit bit = true
      ∧ (∀ j, j < bit → nvic.pending.testBit j = false)
      ∧ Nvic.get_and_clear_next_intr_pending nvic =
          (some ((bit : Int) - 16),
            { nvic with pending := nvic.pending &&& ((2 ^ 128 - 1) ^^^ 2 ^ bit) })
      ∧ (∀ i, (nvic.pending &&& ((2 ^ 128 - 1) ^^^ 2 ^ bit)).testBit i
          = (nvic.pending.testBit i && decide (i ≠ bit))) := by
  obtain ⟨h1, h2⟩ := u128TrailingZeros_spec nvic.pending hne hlt
  have hb := u128TrailingZeros_lt nvic.pending hne hlt
  refine ⟨u128TrailingZeros nvic.pending, rfl, hb, h1, h2, ?_, ?_⟩
  · unfold Nvic.get_and_clear_next_intr_pending
    rw [if_pos hne]
    rfl
  · intro i
    exact clearBit_testBit nvic.pending (u128TrailingZeros nvic.pending) hlt hb i

/-! ### Exception-entry specification -/

theorem read_vector_addr_eq (m : Memory) (vt : Nat) (irq : Int)
    (hirq : -16 ≤ irq) (hirq2 : irq < 112)
    (hvt : vt + 4 * (16 + irq).toNat < 2 ^ 32) :
    read_vector_addr m vt irq = memRead4 m (vt + 4 * (16 + irq).toNat) := by
  have hoi : IRQ_OFFSET = (16 : Int) := rfl
  have hrange : -(2 ^ 31) ≤ IRQ_OFFSET + irq ∧ IRQ_OFFSET + irq < 2 ^ 31 := by
    rw [hoi]
    constructor <;> omega
  have hemod : ((IRQ_OFFSET + irq) % ((2 : Int) ^ 32)).toNat = (16 + irq).toNat := by
    rw [hoi, Int.emod_eq_of_lt (by omega) (by omega)]
  unfold read_vector_addr
  rw [if_pos hrange]
  show (if 4 * ((IRQ_OFFSET + irq) % (2 : Int) ^ 32).toNat < 2 ^ 32
        ∧ vt + 4 * ((IRQ_OFFSET + irq) % (2 : Int) ^ 32).toNat < 2 ^ 32
      then memRead4 m (vt + 4 * ((IRQ_OFFSET + irq) % (2 : Int) ^ 32).toNat)
      else none) = _
  rw [hemod]
  rw [if_pos ⟨by omega, hvt⟩]

theorem push_regs_spec (cpu : Cpu) (h100 : 100 ≤ cpu.regs Reg.sp)
    (hmap : ∀ a, a < cpu.regs Reg.sp → cpu.regs Reg.sp - 100 ≤ a → (cpu.mem a).isSome) :
    ∃ cpu1, push_regs cpu = some cpu1
      ∧ cpu1.regs Reg.sp = cpu.regs Reg.sp - 100
      ∧ (∀ r, r ≠ Reg.sp → cpu1.regs r = cpu.regs r)
      ∧ (∀ x, (cpu1.mem x).isSome = (cpu.mem x).isSome)
      ∧ (∀ x, x < cpu.regs Reg.sp - 100 ∨ cpu.regs Reg.sp ≤ x → cpu1.mem x = cpu.mem x)
      ∧ (∀ j, (hj : j < 25) →
          memRead4 cpu1.mem (cpu.regs Reg.sp - 4 * (j + 1))
            = some (cpu.regs (CONTEXT_REGS.get ⟨j, hj⟩) % 4294967296)) := by
  have hlen : CONTEXT_REGS.length = 25 := rfl
  obtain ⟨m1, e1, dom1, fr1, sl1⟩ :=
    pushList_spec cpu.regs CONTEXT_REGS (cpu.regs Reg.sp) cpu.mem
      (by rw [hlen]; omega)
      (by rw [hlen]; intro a ha hb; exact hmap a ha (by omega))
  rw [hlen] at e1 fr1
  refine ⟨{ regs := RegFile.write cpu.regs Reg.sp (cpu.regs Reg.sp - 100),
            mem := m1 }, ?_, ?_, ?_, ?_, ?_, ?_⟩
  · unfold push_regs
    rw [e1]
    show some _ = some _
    congr 2
  · simp [RegFile.write]
  · intro r hr
    simp [RegFile.write, hr]
  · exact dom1
  · intro x hx
    exact fr1 x (by omega)
  · intro j hj
    exact sl1 j (by rw [hlen]; omega)

theorem run_interrupt_spec (nvic : Nvic) (cpu : Cpu) (vt : Nat) (irq : Int)
    (handler : Nat)
    (hirq : -16 ≤ irq) (hirq2 : irq < 112)
    (hvt : vt + 4 * (16 + irq).toNat < 2 ^ 32)
    (hvec : memRead4 cpu.mem (vt + 4 * (16 + irq).toNat) = some handler)
    (h100 : 100 ≤ cpu.regs Reg.sp)
    (hmap : ∀ a, a < cpu.regs Reg.sp → cpu.regs Reg.sp - 100 ≤ a → (cpu.mem a).isSome) :
    ∃ cpu1, Nvic.run_interrupt nvic cpu vt irq
        = some ({ nvic with in_interrupt := true }, cpu1)
      ∧ cpu1.regs Reg.pc = handler
      ∧ cpu1.regs Reg.lr = 0xFFFFFFFD
      ∧ cpu1.regs Reg.ipsr = (irq % ((2 : Int) ^ 64)).toNat
      ∧ cpu1.regs Reg.sp = cpu.regs Reg.sp - 100
      ∧ (∀ r, r ≠ Reg.sp → r ≠ Reg.pc → r ≠ Reg.lr → r ≠ Reg.ipsr →
          cpu1.regs r = cpu.regs r)
      ∧ (∀ x, (cpu1.mem x).isSome = (cpu.mem x).isSome)
      ∧ (∀ x, x < cpu.regs Reg.sp - 100 ∨ cpu.regs Reg.sp ≤ x → cpu1.mem x = cpu.mem x)
      ∧ (∀ j, (hj : j < 25) →
          memRead4 cpu1.mem (cpu.regs Reg.sp - 4 * (j + 1))
            = some (cpu.regs (CONTEXT_REGS.get ⟨j, hj⟩) % 4294967296)) := by
  obtain ⟨cpup, ep, hsp, hregs, hdom, hframe, hslots⟩ := push_regs_spec cpu h100 hmap
  have hv : read_vector_addr cpu.mem vt irq = some handler := by
    rw [read_vector_addr_eq cpu.mem vt irq hirq hirq2 hvt]
    exact hvec
  refine ⟨⟨RegFile.write (RegFile.write (RegFile.write cpup.regs Reg.ipsr
      (irq % ((2 : Int) ^ 64)).toNat) Reg.pc handler) Reg.lr 0xFFFFFFFD,
      cpup.mem⟩, ?_, ?_, ?_, ?_, ?_, ?_, ?_, ?_, ?_⟩
  · unfold Nvic.run_interrupt
    simp only [hv, ep, Option.bind_eq_bind, Option.some_bind]
    rfl
  · simp [RegFile.write]
  · simp [RegFile.write]
  · simp [RegFile.write]
  · show RegFile.write (RegFile.write (RegFile.write cpup.regs Reg.ipsr
        (irq % ((2 : Int) ^ 64)).toNat) Reg.pc handler) Reg.lr 0xFFFFFFFD Reg.sp
      = cpu.regs Reg.sp - 100
    rw [← hsp]
    simp [RegFile.write]
  · intro r h1 h2 h3 h4
    show RegFile.write (RegFile.write (RegFile.write cpup.regs Reg.ipsr
        (irq % ((2 : Int) ^ 64)).toNat) Reg.pc handler) Reg.lr 0xFFFFFFFD r
      = cpu.regs r
    rw [← hregs r h1]
    simp [RegFile.write, h2, h3, h4]
  · exact hdom
  · exact hframe
  · exact hslots

/-! ### Claim C3: lowest-pending selection -/

/-- Claim C3: for every pending set, `get_and_clear_next_intr_pending`
returns the pending interrupt whose bitmask bit position is lowest and
clears exactly that bit, returns nothing when the pending set is empty, and
on pending = {5, 2, 9} four successive calls return 2, 5, 9, nothing. -/
theorem claim_C3 :
    (∀ nvic : Nvic, nvic.pending ≠ 0 → nvic.pending < 2 ^ 128 →
      ∃ bit, bit < 128
        ∧ nvic.pending.testBit bit = true
        ∧ (∀ j, j < bit → nvic.pending.testBit j = false)
        ∧ ∃ nvic1, Nvic.get_and_clear_next_intr_pending nvic
            = (some ((bit : Int) - 16), nvic1)
          ∧ nvic1.systick_period = nvic.systick_period
          ∧ nvic1.last_systick_trigger = nvic.last_systick_trigger
          ∧ nvic1.in_interrupt = nvic.in_interrupt
          ∧ (∀ i, nvic1.pending.testBit i
              = (nvic.pending.testBit i && decide (i ≠ bit))))
    ∧ (∀ nvic : Nvic, nvic.pending = 0 →
        Nvic.get_and_clear_next_intr_pending nvic = (none, nvic))
    ∧ (Nvic.get_and_clear_next_intr_pending ⟨none, 0, 2 ^ 21 ||| 2 ^ 18 ||| 2 ^ 25, false⟩
        = (some 2, ⟨none, 0, 2 ^ 21 ||| 2 ^ 25, false⟩)
      ∧ Nvic.get_and_clear_next_intr_pending ⟨none, 0, 2 ^ 21 ||| 2 ^ 25, false⟩
        = (some 5, ⟨none, 0, 2 ^ 25, false⟩)
      ∧ Nvic.get_and_clear_next_intr_pending ⟨none, 0, 2 ^ 25, false⟩
        = (some 9, ⟨none, 0, 0, false⟩)
      ∧ Nvic.get_and_clear_next_intr_pending ⟨none, 0, 0, false⟩
        = (none, ⟨none, 0, 0, false⟩)) := by
  refine ⟨?_, ?_, by decide, by decide, by decide, by decide⟩
  · intro nvic hne hlt
    obtain ⟨bit, hbit, hblt, h1, h2, heq, hclear⟩ := get_and_clear_spec nvic hne hlt
    refine ⟨bit, hblt, h1, h2, { nvic with
        pending := nvic.pending &&& ((2 ^ 128 - 1) ^^^ 2 ^ bit) },
      by rw [heq, hbit], rfl, rfl, rfl, ?_⟩
    intro i
    exact hclear i
  · intro nvic h0
    unfold Nvic.get_and_clear_next_intr_pending
    rw [if_neg (by simp [h0])]

/-- Witness for C3: the quantified parts applied to the concrete pending
mask with exactly bit 20 (irq 4) set. -/
theorem claim_C3_witness :
    ((⟨none, 0, 2 ^ 20, false⟩ : Nvic).pending ≠ 0
      ∧ (⟨none, 0, 2 ^ 20, false⟩ : Nvic).pending < 2 ^ 128
      ∧ ∃ bit, bit < 128
        ∧ (⟨none, 0, 2 ^ 20, false⟩ : Nvic).pending.testBit bit = true
        ∧ (∀ j, j < bit → (⟨none, 0, 2 ^ 20, false⟩ : Nvic).pending.testBit j = false)
        ∧ ∃ nvic1, Nvic.get_and_clear_next_intr_pending ⟨none, 0, 2 ^ 20, false⟩
            = (some ((bit : Int) - 16), nvic1)
          ∧ nvic1.systick_period = (⟨none, 0, 2 ^ 20, false⟩ : Nvic).systick_period
          ∧ nvic1.last_systick_trigger
              = (⟨none, 0, 2 ^ 20, false⟩ : Nvic).last_systick_trigger
          ∧ nvic1.in_interrupt = (⟨none, 0, 2 ^ 20, false⟩ : Nvic).in_interrupt
          ∧ (∀ i, nvic1.pending.testBit i
              = ((⟨none, 0, 2 ^ 20, false⟩ : Nvic).pending.testBit i && decide (i ≠ bit))))
    ∧ ((⟨some 7, 3, 0, true⟩ : Nvic).pending = 0
      ∧ Nvic.get_and_clear_next_intr_pending ⟨some 7, 3, 0, true⟩
          = (none, ⟨some 7, 3, 0, true⟩)) :=
  ⟨⟨by decide, by decide,
    claim_C3.1 ⟨none, 0, 2 ^ 20, false⟩ (by decide) (by decide)⟩,
   ⟨rfl, claim_C3.2.1 ⟨some 7, 3, 0, true⟩ rfl⟩⟩

/-! ### Claim C7: coalescing assertion -/

theorem u128TrailingZeros_two_pow (b : Nat) (hb : b < 128) :
    u128TrailingZeros (2 ^ b) = b := by
  have hne : (2 : Nat) ^ b ≠ 0 := Nat.pos_iff_ne_zero.mp (Nat.pos_pow_of_pos _ (by omega))
  have hlt : (2 : Nat) ^ b < 2 ^ 128 := Nat.pow_lt_pow_right (by omega) hb
  have ht := (u128TrailingZeros_spec (2 ^ b) hne hlt).1
  have := Nat.testBit_two_pow (n := b) (m := u128TrailingZeros (2 ^ b))
  rw [ht] at this
  exact (of_decide_eq_true this.symm).symm

theorem two_pow_clear_self (b : Nat) (hb : b < 128) :
    2 ^ b &&& ((2 ^ 128 - 1) ^^^ 2 ^ b) = 0 := by
  apply Nat.eq_of_testBit_eq
  intro i
  rw [Nat.testBit_and, Nat.testBit_xor, Nat.testBit_two_pow_sub_one, Nat.testBit_two_pow,
    Nat.zero_testBit]
  by_cases hib : b = i
  · subst hib
    simp [hb]
  · simp [hib]

/-- Taking from a pending mask holding exactly one bit `b` yields irq
`b - 16` and empties the mask, leaving all other fields alone. -/
theorem get_and_clear_singleton (nvic : Nvic) (b : Nat) (hb : b < 128)
    (hp : nvic.pending = 2 ^ b) :
    Nvic.get_and_clear_next_intr_pending nvic
      = (some ((b : Int) - 16), { nvic with pending := 0 }) := by
  have hne : nvic.pending ≠ 0 := by
    rw [hp]
    exact Nat.pos_iff_ne_zero.mp (Nat.pos_pow_of_pos _ (by omega))
  have htz : u128TrailingZeros nvic.pending = b := by
    rw [hp]
    exact u128TrailingZeros_two_pow b hb
  unfold Nvic.get_and_clear_next_intr_pending
  rw [if_pos hne]
  show (some ((u128TrailingZeros nvic.pending : Int) - 16),
      ({ nvic with pending := nvic.pending
          &&& ((2 ^ 128 - 1) ^^^ 2 ^ u128TrailingZeros nvic.pending) } : Nvic)) = _
  rw [htz, hp, two_pow_clear_self b hb]

/-- Successful assertion unfolded: within bounds, the bit is OR-ed in. -/
theorem set_intr_pending_eq (nvic : Nvic) (irq : Int)
    (h1 : 0 < IRQ_OFFSET + irq) (h2 : IRQ_OFFSET + irq < 128) :
    Nvic.set_intr_pending nvic irq
      = some { nvic with pending := nvic.pending ||| 2 ^ (IRQ_OFFSET + irq).toNat } := by
  unfold Nvic.set_intr_pending
  rw [if_pos h1, if_pos h2]

/-- Failed assertion unfolded: out of bounds is fatal. -/
theorem set_intr_pending_none (nvic : Nvic) (irq : Int)
    (h : ¬(0 < IRQ_OFFSET + irq ∧ IRQ_OFFSET + irq < 128)) :
    Nvic.set_intr_pending nvic irq = none := by
  unfold Nvic.set_intr_pending
  by_cases h1 : 0 < IRQ_OFFSET + irq
  · rw [if_pos h1, if_neg (fun h2 => h ⟨h1, h2⟩)]
  · rw [if_neg h1]

/-- Claim C7: asserting an interrupt twice before it is consumed leaves the
pending bitmask identical to asserting it once; with nothing else pending,
`get_and_clear_next_intr_pending` then yields it once and afterwards
nothing. -/
theorem claim_C7 :
    (∀ (nvic nvic1 : Nvic) (irq : Int),
      Nvic.set_intr_pending nvic irq = some nvic1 →
      Nvic.set_intr_pending nvic1 irq = some nvic1)
    ∧ (∀ irq : Int, -15 ≤ irq → irq < 112 →
        ∀ nvic : Nvic, nvic.pending = 0 →
        ∃ nvic1, Nvic.set_intr_pending nvic irq = some nvic1
          ∧ Nvic.set_intr_pending nvic1 irq = some nvic1
          ∧ ∃ nvic2, Nvic.get_and_clear_next_intr_pending nvic1 = (some irq, nvic2)
            ∧ nvic2.pending = 0
            ∧ Nvic.get_and_clear_next_intr_pending nvic2 = (none, nvic2)) := by
  have hidem : ∀ (nvic : Nvic) (irq : Int), 0 < IRQ_OFFSET + irq → IRQ_OFFSET + irq < 128 →
      Nvic.set_intr_pending { nvic with
          pending := nvic.pending ||| 2 ^ (IRQ_OFFSET + irq).toNat } irq
        = some { nvic with pending := nvic.pending ||| 2 ^ (IRQ_OFFSET + irq).toNat } := by
    intro nvic irq h1 h2
    rw [set_intr_pending_eq _ irq h1 h2]
    congr 2
    show nvic.pending ||| 2 ^ (IRQ_OFFSET + irq).toNat ||| 2 ^ (IRQ_OFFSET + irq).toNat
      = nvic.pending ||| 2 ^ (IRQ_OFFSET + irq).toNat
    apply Nat.eq_of_testBit_eq
    intro i
    simp [Nat.testBit_or, Bool.or_assoc]
  constructor
  · intro nvic nvic1 irq h
    by_cases hb : 0 < IRQ_OFFSET + irq ∧ IRQ_OFFSET + irq < 128
    · rw [set_intr_pending_eq nvic irq hb.1 hb.2] at h
      obtain rfl := Option.some_injective _ h
      exact hidem nvic irq hb.1 hb.2
    · rw [set_intr_pending_none nvic irq hb] at h
      exact absurd h (by simp)
  · intro irq hlo hhi nvic h0
    have h1 : 0 < IRQ_OFFSET + irq := by
      show (0 : Int) < 16 + irq
      omega
    have h2 : IRQ_OFFSET + irq < 128 := by
      show (16 : Int) + irq < 128
      omega
    have hbn : (IRQ_OFFSET + irq).toNat < 128 := by
      show ((16 : Int) + irq).toNat < 128
      omega
    have hp1 : ({ nvic with
        pending := nvic.pending ||| 2 ^ (IRQ_OFFSET + irq).toNat } : Nvic).pending
        = 2 ^ (IRQ_OFFSET + irq).toNat := by
      show nvic.pending ||| 2 ^ (IRQ_OFFSET + irq).toNat = _
      rw [h0]
      exact Nat.zero_or _
    have htake := get_and_clear_singleton _ ((IRQ_OFFSET + irq).toNat) hbn hp1
    have hirqeq : (((IRQ_OFFSET + irq).toNat : Nat) : Int) - 16 = irq := by
      show (((16 + irq).toNat : Nat) : Int) - 16 = irq
      omega
    rw [hirqeq] at htake
    refine ⟨_, set_intr_pending_eq nvic irq h1 h2, hidem nvic irq h1 h2,
      _, htake, rfl, ?_⟩
    unfold Nvic.get_and_clear_next_intr_pending
    rw [if_neg (by simp)]

/-- Witness for C7: both parts applied at irq 3 starting from the empty
pending mask. -/
theorem claim_C7_witness :
    (Nvic.set_intr_pending ⟨none, 0, 0, false⟩ 3 = some ⟨none, 0, 2 ^ 19, false⟩
      ∧ Nvic.set_intr_pending ⟨none, 0, 2 ^ 19, false⟩ 3 = some ⟨none, 0, 2 ^ 19, false⟩)
    ∧ ((-15 : Int) ≤ 3 ∧ (3 : Int) < 112
      ∧ (⟨none, 0, 0, false⟩ : Nvic).pending = 0
      ∧ ∃ nvic1, Nvic.set_intr_pending ⟨none, 0, 0, false⟩ 3 = some nvic1
          ∧ Nvic.set_intr_pending nvic1 3 = some nvic1
          ∧ ∃ nvic2, Nvic.get_and_clear_next_intr_pending nvic1 = (some 3, nvic2)
            ∧ nvic2.pending = 0
            ∧ Nvic.get_and_clear_next_intr_pending nvic2 = (none, nvic2)) :=
  ⟨⟨by decide, claim_C7.1 ⟨none, 0, 2 ^ 19, false⟩ ⟨none, 0, 2 ^ 19, false⟩ 3 (by decide)⟩,
   by decide, by decide, rfl,
   claim_C7.2 3 (by decide) (by decide) ⟨none, 0, 0, false⟩ rfl⟩

/-! ### Claim C8: assertion bounds checking (corrected) -/

/-- Counterexample to C8 as stated: for `irq = -16` the resulting bit
position `IRQ_OFFSET + irq = 0` is neither negative nor beyond the 128-bit
capacity, yet `set_intr_pending` fails fatally (the code asserts `bit > 0`,
strictly), so the claim that every in-capacity interrupt number succeeds is
false. -/
theorem claim_C8_counterexample :
    (0 : Int) ≤ IRQ_OFFSET + (-16) ∧ IRQ_OFFSET + (-16) < 128
      ∧ Nvic.set_intr_pending ⟨none, 0, 0, false⟩ (-16) = none := by
  refine ⟨by decide, by decide, ?_⟩
  rfl

/-- Claim C8 (amended): `set_intr_pending` fails fatally exactly when the
bit position `IRQ_OFFSET + irq` is non-positive (the code's `assert!(bit >
0)`, which also rejects position 0) or at least 128 (shift beyond the
`u128` capacity, a checked-arithmetic abort, never a silent wrap); for
`0 < bit < 128` it succeeds and marks the interrupt pending. -/
theorem claim_C8 :
    ∀ (nvic : Nvic) (irq : Int),
      (IRQ_OFFSET + irq ≤ 0 ∨ 128 ≤ IRQ_OFFSET + irq →
        Nvic.set_intr_pending nvic irq = none)
      ∧ (0 < IRQ_OFFSET + irq → IRQ_OFFSET + irq < 128 →
        Nvic.set_intr_pending nvic irq
          = some { nvic with
              pending := nvic.pending ||| 2 ^ (IRQ_OFFSET + irq).toNat }
          ∧ ({ nvic with
              pending := nvic.pending
                ||| 2 ^ (IRQ_OFFSET + irq).toNat } : Nvic).pending.testBit
              (IRQ_OFFSET + irq).toNat = true) := by
  intro nvic irq
  constructor
  · intro h
    exact set_intr_pending_none nvic irq (by omega)
  · intro h1 h2
    refine ⟨set_intr_pending_eq nvic irq h1 h2, ?_⟩
    show (nvic.pending ||| 2 ^ (IRQ_OFFSET + irq).toNat).testBit _ = true
    rw [Nat.testBit_or, Nat.testBit_two_pow_self]
    simp

/-- Witness for C8: the failure branch at irq 127 (bit position 143 ≥ 128)
and the success branch at irq 0 (bit position 16). -/
theorem claim_C8_witness :
    ((IRQ_OFFSET + 127 ≤ 0 ∨ (128 : Int) ≤ IRQ_OFFSET + 127)
      ∧ Nvic.set_intr_pending ⟨none, 0, 0, false⟩ 127 = none)
    ∧ ((0 : Int) < IRQ_OFFSET + 0 ∧ IRQ_OFFSET + 0 < 128
      ∧ Nvic.set_intr_pending ⟨none, 0, 0, false⟩ 0
          = some { (⟨none, 0, 0, false⟩ : Nvic) with
              pending := (0 : Nat) ||| 2 ^ ((IRQ_OFFSET + 0).toNat) }
      ∧ ((⟨none, 0, (0 : Nat) ||| 2 ^ ((IRQ_OFFSET + 0).toNat), false⟩ : Nvic)
          ).pending.testBit (IRQ_OFFSET + 0).toNat = true) :=
  ⟨⟨by decide, (claim_C8 ⟨none, 0, 0, false⟩ 127).1 (by decide)⟩,
   by decide, by decide,
   ((claim_C8 ⟨none, 0, 0, false⟩ 0).2 (by decide) (by decide)).1,
   ((claim_C8 ⟨none, 0, 0, false⟩ 0).2 (by decide) (by decide)).2⟩

/-! ### Claim C4: SysTick periodicity -/

/-- The SysTick update fires when the elapsed count strictly exceeds the
period: the trigger is recorded and bit 15 (SysTick) is asserted. -/
theorem maybe_set_systick_fire (nvic : Nvic) (P n : Nat)
    (hP : nvic.systick_period = some P)
    (hle : nvic.last_systick_trigger ≤ n) (hfired : P < n - nvic.last_systick_trigger) :
    Nvic.maybe_set_systick_intr_pending nvic n
      = some { nvic with
               last_systick_trigger := n,
               pending := nvic.pending ||| 2 ^ 15 } := by
  obtain ⟨sp, last, pend, ii⟩ := nvic
  replace hP : sp = some P := hP
  replace hle : last ≤ n := hle
  replace hfired : P < n - last := hfired
  subst hP
  unfold Nvic.maybe_set_systick_intr_pending
  show (if n < last then none
      else if P < n - last then
        Nvic.set_intr_pending ⟨some P, n, pend, ii⟩ SYSTICK
      else some ⟨some P, last, pend, ii⟩)
    = some ⟨some P, n, pend ||| 2 ^ 15, ii⟩
  rw [if_neg (by omega), if_pos hfired]
  rw [set_intr_pending_eq _ SYSTICK (by decide) (by decide)]
  rfl

/-- The SysTick update is a no-op when the elapsed count is within the
period. -/
theorem maybe_set_systick_quiet (nvic : Nvic) (P n : Nat)
    (hP : nvic.systick_period = some P)
    (hle : nvic.last_systick_trigger ≤ n) (hq : n - nvic.last_systick_trigger ≤ P) :
    Nvic.maybe_set_systick_intr_pending nvic n = some nvic := by
  obtain ⟨sp, last, pend, ii⟩ := nvic
  replace hP : sp = some P := hP
  replace hle : last ≤ n := hle
  replace hq : n - last ≤ P := hq
  subst hP
  unfold Nvic.maybe_set_systick_intr_pending
  show (if n < last then none
      else if P < n - last then
        Nvic.set_intr_pending ⟨some P, n, pend, ii⟩ SYSTICK
      else some ⟨some P, last, pend, ii⟩)
    = some ⟨some P, last, pend, ii⟩
  rw [if_neg (by omega), if_neg (by omega)]

/-- The SysTick update with no configured period is a no-op. -/
theorem maybe_set_systick_none (nvic : Nvic) (n : Nat)
    (hP : nvic.systick_period = none) :
    Nvic.maybe_set_systick_intr_pending nvic n = some nvic := by
  unfold Nvic.maybe_set_systick_intr_pending
  rw [hP]

/-- Claim C4: with a configured period P the scheduling-time SysTick update
asserts the SysTick exception and records `last_systick_trigger = n`
exactly when the elapsed instruction count strictly exceeds P, and is a
no-op otherwise; after an assertion the next one needs a full period past
the new trigger point; with no period configured the update never changes
anything. -/
theorem claim_C4 :
    (∀ (nvic : Nvic) (P n : Nat), nvic.systick_period = some P →
      nvic.last_systick_trigger ≤ n →
      (P < n - nvic.last_systick_trigger →
        Nvic.maybe_set_systick_intr_pending nvic n
          = some { nvic with
                   last_systick_trigger := n,
                   pending := nvic.pending ||| 2 ^ 15 })
      ∧ (n - nvic.last_systick_trigger ≤ P →
        Nvic.maybe_set_systick_intr_pending nvic n = some nvic))
    ∧ (∀ (nvic : Nvic) (P n m : Nat), nvic.systick_period = some P →
        nvic.last_systick_trigger ≤ n → P < n - nvic.last_systick_trigger →
        n ≤ m → m - n ≤ P →
        Nvic.maybe_set_systick_intr_pending { nvic with
                                               last_systick_trigger := n,
                                               pending := nvic.pending ||| 2 ^ 15 } m
          = some { nvic with
                   last_systick_trigger := n,
                   pending := nvic.pending ||| 2 ^ 15 })
    ∧ (∀ (nvic : Nvic) (n : Nat), nvic.systick_period = none →
        Nvic.maybe_set_systick_intr_pending nvic n = some nvic) := by
  refine ⟨?_, ?_, ?_⟩
  · intro nvic P n hP hle
    exact ⟨maybe_set_systick_fire nvic P n hP hle, maybe_set_systick_quiet nvic P n hP hle⟩
  · intro nvic P n m hP hle hfired hnm hq
    exact maybe_set_systick_quiet _ P m (by rw [← hP]) (by show n ≤ m; omega)
      (by show m - n ≤ P; omega)
  · intro nvic n hP
    exact maybe_set_systick_none nvic n hP

/-- Witness for C4: period 10, trigger recorded at 0, checked at
instruction counts 11 (fires), 5 (does not), 15 from the updated state
(does not), and a state with no period at 1000 (never fires). -/
theorem claim_C4_witness :
    ((⟨some 10, 0, 0, false⟩ : Nvic).systick_period = some 10
      ∧ (⟨some 10, 0, 0, false⟩ : Nvic).last_systick_trigger ≤ 11
      ∧ (10 < 11 - (⟨some 10, 0, 0, false⟩ : Nvic).last_systick_trigger
        ∧ Nvic.maybe_set_systick_intr_pending ⟨some 10, 0, 0, false⟩ 11
            = some ⟨some 10, 11, (0 : Nat) ||| 2 ^ 15, false⟩)
      ∧ (5 - (⟨some 10, 0, 0, false⟩ : Nvic).last_systick_trigger ≤ 10
        ∧ Nvic.maybe_set_systick_intr_pending ⟨some 10, 0, 0, false⟩ 5
            = some ⟨some 10, 0, 0, false⟩))
    ∧ (Nvic.maybe_set_systick_intr_pending ⟨some 10, 11, (0 : Nat) ||| 2 ^ 15, false⟩ 15
        = some ⟨some 10, 11, (0 : Nat) ||| 2 ^ 15, false⟩)
    ∧ ((⟨none, 0, 0, false⟩ : Nvic).systick_period = none
      ∧ Nvic.maybe_set_systick_intr_pending ⟨none, 0, 0, false⟩ 1000
          = some ⟨none, 0, 0, false⟩) :=
  ⟨⟨rfl, by decide,
    ⟨by decide, ((claim_C4.1 ⟨some 10, 0, 0, false⟩ 10 11 rfl (by decide)).1 (by decide))⟩,
    ⟨by decide, ((claim_C4.1 ⟨some 10, 0, 0, false⟩ 10 5 rfl (by decide)).2 (by decide))⟩⟩,
   claim_C4.2.1 ⟨some 10, 0, 0, false⟩ 10 11 15 rfl (by decide) (by decide) (by decide)
     (by decide),
   ⟨rfl, claim_C4.2.2 ⟨none, 0, 0, false⟩ 1000 rfl⟩⟩

/-! ### Scheduling-check helpers -/

/-- A scheduling check that finds interrupts disabled or the controller
already active returns right after the SysTick update, leaving the CPU
untouched. -/
theorem run_pending_disabled_or_active (nvic nvic1 : Nvic) (cpu : Cpu) (vt n : Nat)
    (hm : Nvic.maybe_set_systick_intr_pending nvic n = some nvic1)
    (hd : are_interrupts_disabled cpu = true ∨ nvic1.in_interrupt = true) :
    Nvic.run_pending_interrupts nvic cpu vt n = some (nvic1, cpu) := by
  unfold Nvic.run_pending_interrupts
  rw [hm]
  show (if are_interrupts_disabled cpu || nvic1.in_interrupt then some (nvic1, cpu)
      else match Nvic.get_and_clear_next_intr_pending nvic1 with
        | (some irq, nvic2) => Nvic.run_interrupt nvic2 cpu vt irq
        | (none, nvic2) => some (nvic2, cpu))
    = some (nvic1, cpu)
  have hc : (are_interrupts_disabled cpu || nvic1.in_interrupt) = true := by
    rcases hd with h | h <;> simp [h]
  rw [if_pos hc]

/-- A scheduling check with interrupts enabled and the controller idle
dispatches on the pending set taken after the SysTick update. -/
theorem run_pending_enabled_idle (nvic nvic1 : Nvic) (cpu : Cpu) (vt n : Nat)
    (hm : Nvic.maybe_set_systick_intr_pending nvic n = some nvic1)
    (hd : are_interrupts_disabled cpu = false) (hi : nvic1.in_interrupt = false) :
    Nvic.run_pending_interrupts nvic cpu vt n
      = match Nvic.get_and_clear_next_intr_pending nvic1 with
        | (some irq, nvic2) => Nvic.run_interrupt nvic2 cpu vt irq
        | (none, nvic2) => some (nvic2, cpu) := by
  unfold Nvic.run_pending_interrupts
  rw [hm]
  show (if are_interrupts_disabled cpu || nvic1.in_interrupt then some (nvic1, cpu)
      else match Nvic.get_and_clear_next_intr_pending nvic1 with
        | (some irq, nvic2) => Nvic.run_interrupt nvic2 cpu vt irq
        | (none, nvic2) => some (nvic2, cpu))
    = _
  rw [hd, hi]
  rfl

/-- The SysTick update always succeeds when the instruction counter has not
gone backwards, and only ever adds the SysTick bit. -/
theorem maybe_set_systick_total (nvic : Nvic) (n : Nat)
    (hle : nvic.last_systick_trigger ≤ n) :
    ∃ nvic1, Nvic.maybe_set_systick_intr_pending nvic n = some nvic1
      ∧ (nvic1 = nvic
        ∨ nvic1 = { nvic with
                    last_systick_trigger := n,
                    pending := nvic.pending ||| 2 ^ 15 })
      ∧ nvic1.in_interrupt = nvic.in_interrupt
      ∧ (∀ i, nvic.pending.testBit i = true → nvic1.pending.testBit i = true)
      ∧ (nvic1.pending = nvic.pending ∨ nvic1.pending = nvic.pending ||| 2 ^ 15) := by
  obtain ⟨sp, last, pend, ii⟩ := nvic
  replace hle : last ≤ n := hle
  cases sp with
  | none =>
      refine ⟨⟨none, last, pend, ii⟩, rfl, Or.inl rfl, rfl, fun i h => h, Or.inl rfl⟩
  | some P =>
      by_cases hfired : P < n - last
      · refine ⟨⟨some P, n, pend ||| 2 ^ 15, ii⟩, ?_, Or.inr rfl, rfl, ?_, Or.inr rfl⟩
        · exact maybe_set_systick_fire ⟨some P, last, pend, ii⟩ P n rfl hle hfired
        · intro i h
          show (pend ||| 2 ^ 15).testBit i = true
          rw [Nat.testBit_or, h]
          rfl
      · refine ⟨⟨some P, last, pend, ii⟩, ?_, Or.inl rfl, rfl, fun i h => h, Or.inl rfl⟩
        unfold Nvic.maybe_set_systick_intr_pending
        show (if n < last then none
            else if P < n - last then
              Nvic.set_intr_pending ⟨some P, n, pend, ii⟩ SYSTICK
            else some ⟨some P, last, pend, ii⟩)
          = some ⟨some P, last, pend, ii⟩
        rw [if_neg (by omega), if_neg hfired]

/-! ### Claim C5: masking (corrected) -/

/-- Counterexample to C5 as stated: with interrupts disabled, a non-empty
pending set (irq 5, bit 21) and a SysTick period that has elapsed, the
scheduling check changes the pending set — the SysTick update runs first
and adds bit 15 — so "leaves the pending set unchanged" is false. -/
theorem claim_C5_counterexample :
    are_interrupts_disabled ⟨fun r => if r = Reg.primask then 1 else 0, fun _ => some 0⟩
      = true
    ∧ (⟨some 1, 0, 2 ^ 21, false⟩ : Nvic).pending ≠ 0
    ∧ (Nvic.run_pending_interrupts ⟨some 1, 0, 2 ^ 21, false⟩
        ⟨fun r => if r = Reg.primask then 1 else 0, fun _ => some 0⟩ 0 100).map
          (fun p => p.1.pending)
      = some (2 ^ 21 ||| 2 ^ 15)
    ∧ (2 ^ 21 ||| 2 ^ 15 : Nat) ≠ 2 ^ 21 := by
  refine ⟨rfl, by decide, by decide, by decide⟩

/-- Claim C5 (amended): with the global interrupt-disable flag set, a
scheduling check with a non-empty pending set performs no exception entry
(the CPU is returned untouched), consumes no pending interrupt, and leaves
the pending set unchanged except that the SysTick timing update made at the
start of the check may additionally assert the SysTick bit. -/
theorem claim_C5 :
    ∀ (nvic : Nvic) (cpu : Cpu) (vt n : Nat),
      nvic.pending ≠ 0 →
      are_interrupts_disabled cpu = true →
      nvic.last_systick_trigger ≤ n →
      ∃ nvic1, Nvic.run_pending_interrupts nvic cpu vt n = some (nvic1, cpu)
        ∧ (∀ i, nvic.pending.testBit i = true → nvic1.pending.testBit i = true)
        ∧ (nvic1.pending = nvic.pending ∨ nvic1.pending = nvic.pending ||| 2 ^ 15)
        ∧ nvic1.in_interrupt = nvic.in_interrupt := by
  intro nvic cpu vt n hpend hdis hle
  obtain ⟨nvic1, hm, _, hii, hmono, hpd⟩ := maybe_set_systick_total nvic n hle
  exact ⟨nvic1, run_pending_disabled_or_active nvic nvic1 cpu vt n hm (Or.inl hdis),
    hmono, hpd, hii⟩

/-- Witness for C5: pending bit 21 with interrupts disabled and no SysTick
period; the check returns the state unchanged. -/
theorem claim_C5_witness :
    ((⟨none, 0, 2 ^ 21, false⟩ : Nvic).pending ≠ 0
    ∧ are_interrupts_disabled ⟨fun r => if r = Reg.primask then 1 else 0, fun _ => some 0⟩
      = true
    ∧ (⟨none, 0, 2 ^ 21, false⟩ : Nvic).last_systick_trigger ≤ 7)
    ∧ ∃ nvic1, Nvic.run_pending_interrupts ⟨none, 0, 2 ^ 21, false⟩
        ⟨fun r => if r = Reg.primask then 1 else 0, fun _ => some 0⟩ 3 7
        = some (nvic1, ⟨fun r => if r = Reg.primask then 1 else 0, fun _ => some 0⟩)
      ∧ (∀ i, (⟨none, 0, 2 ^ 21, false⟩ : Nvic).pending.testBit i = true →
          nvic1.pending.testBit i = true)
      ∧ (nvic1.pending = (⟨none, 0, 2 ^ 21, false⟩ : Nvic).pending
        ∨ nvic1.pending = (⟨none, 0, 2 ^ 21, false⟩ : Nvic).pending ||| 2 ^ 15)
      ∧ nvic1.in_interrupt = (⟨none, 0, 2 ^ 21, false⟩ : Nvic).in_interrupt :=
  ⟨⟨by decide, rfl, by decide⟩,
   claim_C5 ⟨none, 0, 2 ^ 21, false⟩
     ⟨fun r => if r = Reg.primask then 1 else 0, fun _ => some 0⟩ 3 7
     (by decide) rfl (by decide)⟩

/-! ### Claim C10: the SysTick update runs first and unconditionally -/

/-- Claim C10: on a scheduling check made while interrupts are disabled or
while an exception is being serviced, the SysTick timing update still runs:
with an elapsed period it asserts the SysTick pending bit and advances
`last_systick_trigger` to the current instruction count, while the CPU is
left untouched — only delivery is deferred. -/
theorem claim_C10 :
    ∀ (nvic : Nvic) (cpu : Cpu) (vt n P : Nat),
      nvic.systick_period = some P →
      nvic.last_systick_trigger ≤ n →
      P < n - nvic.last_systick_trigger →
      (are_interrupts_disabled cpu = true ∨ nvic.in_interrupt = true) →
      Nvic.run_pending_interrupts nvic cpu vt n
        = some ({ nvic with
                  last_systick_trigger := n,
                  pending := nvic.pending ||| 2 ^ 15 }, cpu)
        ∧ ({ nvic with
             last_systick_trigger := n,
             pending := nvic.pending ||| 2 ^ 15 } : Nvic).pending.testBit 15 = true := by
  intro nvic cpu vt n P hP hle hfired hd
  have hm := maybe_set_systick_fire nvic P n hP hle hfired
  refine ⟨run_pending_disabled_or_active nvic _ cpu vt n hm ?_, ?_⟩
  · rcases hd with h | h
    · exact Or.inl h
    · exact Or.inr h
  · show (nvic.pending ||| 2 ^ 15).testBit 15 = true
    rw [Nat.testBit_or, Nat.testBit_two_pow_self]
    simp

/-- Witness for C10: period 2 elapsed at count 50 with interrupts disabled;
the check asserts SysTick and advances the trigger without touching the
CPU. -/
theorem claim_C10_witness :
    ((⟨some 2, 0, 0, true⟩ : Nvic).systick_period = some 2
    ∧ (⟨some 2, 0, 0, true⟩ : Nvic).last_systick_trigger ≤ 50
    ∧ 2 < 50 - (⟨some 2, 0, 0, true⟩ : Nvic).last_systick_trigger
    ∧ (⟨some 2, 0, 0, true⟩ : Nvic).in_interrupt = true)
    ∧ Nvic.run_pending_interrupts ⟨some 2, 0, 0, true⟩
        ⟨fun _ => 0, fun _ => some 0⟩ 0 50
      = some (⟨some 2, 50, (0 : Nat) ||| 2 ^ 15, true⟩, ⟨fun _ => 0, fun _ => some 0⟩)
    ∧ ((0 : Nat) ||| 2 ^ 15).testBit 15 = true :=
  ⟨⟨rfl, by decide, by decide, rfl⟩,
   (claim_C10 ⟨some 2, 0, 0, true⟩ ⟨fun _ => 0, fun _ => some 0⟩ 0 50 2 rfl (by decide)
     (by decide) (Or.inr rfl)).1,
   (claim_C10 ⟨some 2, 0, 0, true⟩ ⟨fun _ => 0, fun _ => some 0⟩ 0 50 2 rfl (by decide)
     (by decide) (Or.inr rfl)).2⟩

/-! ### Claim C1: exception entry -/

/-- Claim C1: for every supported interrupt number and vector-table base,
exception entry reads the handler address as a 4-byte little-endian word at
`vector_table_base + 4 * (irq + 16)`, pushes the 25 context registers (in
the order FPSCR, S15…S0, XPSR, PC, LR, R12, R3, R2, R1, R0; the stack
pointer is decremented by 4 before each little-endian 4-byte write, so R0
ends at the lowest address), writes the final stack pointer back
(`sp - 100`), sets IPSR to the interrupt number (as a `u64` cast), PC to
the handler address, and LR to the sentinel `0xFFFFFFFD`. -/
theorem claim_C1 :
    ∀ (nvic : Nvic) (cpu : Cpu) (vt : Nat) (irq : Int) (b0 b1 b2 b3 : Nat),
      -16 ≤ irq → irq < 112 →
      vt + 4 * (16 + irq).toNat < 2 ^ 32 →
      cpu.mem (vt + 4 * (16 + irq).toNat) = some b0 →
      cpu.mem (vt + 4 * (16 + irq).toNat + 1) = some b1 →
      cpu.mem (vt + 4 * (16 + irq).toNat + 2) = some b2 →
      cpu.mem (vt + 4 * (16 + irq).toNat + 3) = some b3 →
      100 ≤ cpu.regs Reg.sp →
      (∀ a, a < cpu.regs Reg.sp → cpu.regs Reg.sp - 100 ≤ a → (cpu.mem a).isSome) →
      ∃ cpu1, Nvic.run_interrupt nvic cpu vt irq
          = some ({ nvic with in_interrupt := true }, cpu1)
        ∧ cpu1.regs Reg.pc = b0 + 256 * b1 + 65536 * b2 + 16777216 * b3
        ∧ cpu1.regs Reg.lr = 0xFFFFFFFD
        ∧ cpu1.regs Reg.ipsr = (irq % ((2 : Int) ^ 64)).toNat
        ∧ cpu1.regs Reg.sp = cpu.regs Reg.sp - 100
        ∧ (∀ j, (hj : j < 25) →
            memRead4 cpu1.mem (cpu.regs Reg.sp - 4 * (j + 1))
              = some (cpu.regs (CONTEXT_REGS.get ⟨j, hj⟩) % 4294967296)) := by
  intro nvic cpu vt irq b0 b1 b2 b3 hirq hirq2 hvt h0 h1 h2 h3 h100 hmap
  have hvec : memRead4 cpu.mem (vt + 4 * (16 + irq).toNat)
      = some (b0 + 256 * b1 + 65536 * b2 + 16777216 * b3) :=
    memRead4_eq cpu.mem _ b0 b1 b2 b3 h0 h1 h2 h3
  obtain ⟨cpu1, he, hpc, hlr, hipsr, hsp, _, _, _, hslots⟩ :=
    run_interrupt_spec nvic cpu vt irq _ hirq hirq2 hvt hvec h100 hmap
  exact ⟨cpu1, he, hpc, hlr, hipsr, hsp, hslots⟩

set_option maxRecDepth 100000 in
/-- Witness for C1: a concrete machine with SP = 200, a fully mapped window
below 300, vector table at 0, irq 0 (slot address 64 holding handler 52). -/
theorem claim_C1_witness :
    ((-16 : Int) ≤ 0 ∧ (0 : Int) < 112
      ∧ (0 : Nat) + 4 * ((16 : Int) + 0).toNat < 2 ^ 32
      ∧ (Cpu.mk (fun r => if r = Reg.sp then 200 else if r = Reg.r0 then 7 else 0)
          (fun a => if a < 300 then (if a = 64 then some 52 else some 0) else none)).mem
          (0 + 4 * ((16 : Int) + 0).toNat) = some 52
      ∧ 100 ≤ (Cpu.mk (fun r => if r = Reg.sp then 200 else if r = Reg.r0 then 7 else 0)
          (fun a => if a < 300 then (if a = 64 then some 52 else some 0) else none)).regs
          Reg.sp)
    ∧ ∃ cpu1, Nvic.run_interrupt ⟨none, 0, 0, false⟩
        (Cpu.mk (fun r => if r = Reg.sp then 200 else if r = Reg.r0 then 7 else 0)
          (fun a => if a < 300 then (if a = 64 then some 52 else some 0) else none)) 0 0
        = some ({ (⟨none, 0, 0, false⟩ : Nvic) with in_interrupt := true }, cpu1)
      ∧ cpu1.regs Reg.pc = 52 + 256 * 0 + 65536 * 0 + 16777216 * 0
      ∧ cpu1.regs Reg.lr = 0xFFFFFFFD
      ∧ cpu1.regs Reg.ipsr = ((0 : Int) % ((2 : Int) ^ 64)).toNat
      ∧ cpu1.regs Reg.sp
          = (Cpu.mk (fun r => if r = Reg.sp then 200 else if r = Reg.r0 then 7 else 0)
              (fun a => if a < 300 then (if a = 64 then some 52 else some 0) else none)).regs
              Reg.sp - 100
      ∧ (∀ j, (hj : j < 25) →
          memRead4 cpu1.mem
            ((Cpu.mk (fun r => if r = Reg.sp then 200 else if r = Reg.r0 then 7 else 0)
              (fun a => if a < 300 then (if a = 64 then some 52 else some 0) else none)).regs
              Reg.sp - 4 * (j + 1))
            = some ((Cpu.mk (fun r => if r = Reg.sp then 200 else if r = Reg.r0 then 7 else 0)
              (fun a => if a < 300 then (if a = 64 then some 52 else some 0) else none)).regs
              (CONTEXT_REGS.get ⟨j, hj⟩) % 4294967296)) :=
  ⟨⟨by decide, by decide, by decide, by decide, by decide⟩,
   claim_C1 ⟨none, 0, 0, false⟩
     (Cpu.mk (fun r => if r = Reg.sp then 200 else if r = Reg.r0 then 7 else 0)
       (fun a => if a < 300 then (if a = 64 then some 52 else some 0) else none))
     0 0 52 0 0 0 (by decide) (by decide) (by decide) (by decide) (by decide) (by decide)
     (by decide) (by decide) (by decide)⟩

/-! ### Claim C2: frame round-trip -/

/-- Claim C2: exception entry followed by exception exit restores all 25
context registers (R0–R3, R12, LR, PC, XPSR, S0–S15, FPSCR) and the stack
pointer to their pre-entry values; the exit pops the frame in reverse order
reading little-endian words and writes the final stack pointer back,
clearing the active flag. -/
theorem claim_C2 :
    ∀ (nvic : Nvic) (cpu : Cpu) (vt : Nat) (irq : Int) (handler : Nat),
      -16 ≤ irq → irq < 112 →
      vt + 4 * (16 + irq).toNat < 2 ^ 32 →
      memRead4 cpu.mem (vt + 4 * (16 + irq).toNat) = some handler →
      100 ≤ cpu.regs Reg.sp → cpu.regs Reg.sp < 2 ^ 64 →
      (∀ a, a < cpu.regs Reg.sp → cpu.regs Reg.sp - 100 ≤ a → (cpu.mem a).isSome) →
      (∀ r, r ∈ CONTEXT_REGS → cpu.regs r < 4294967296) →
      ∃ cpu1 nvic2 cpu2,
        Nvic.run_interrupt nvic cpu vt irq
          = some ({ nvic with in_interrupt := true }, cpu1)
        ∧ Nvic.return_from_interrupt { nvic with in_interrupt := true } cpu1
          = some (nvic2, cpu2)
        ∧ (∀ r, r ∈ CONTEXT_REGS → cpu2.regs r = cpu.regs r)
        ∧ cpu2.regs Reg.sp = cpu.regs Reg.sp
        ∧ nvic2.in_interrupt = false := by
  intro nvic cpu vt irq handler hirq hirq2 hvt hvec h100 hsp64 hmap hbound
  obtain ⟨cpu1, he, hpc, hlr, hipsr, hsp, hregs1, hdom, hframe, hslots⟩ :=
    run_interrupt_spec nvic cpu vt irq handler hirq hirq2 hvt hvec h100 hmap
  have hrlen : CONTEXT_REGS.reverse.length = 25 := rfl
  have hgd : ∀ (l : List Reg) (j : Nat) (hj : j < l.length),
      l.get ⟨j, hj⟩ = l.getD j Reg.r0 := by
    intro l j hj
    rw [List.getD_eq_getElem?_getD, List.getElem?_eq_getElem hj]
    rfl
  have hrevget : ∀ j : Fin 25, CONTEXT_REGS.reverse.getD j.1 Reg.r0
      = CONTEXT_REGS.getD (24 - j.1) Reg.r0 := by decide
  have hrevne : ∀ j k : Fin 25, j.1 ≠ k.1 →
      CONTEXT_REGS.reverse.getD j.1 Reg.r0 ≠ CONTEXT_REGS.reverse.getD k.1 Reg.r0 := by
    decide
  have hvals : ∀ j, j < CONTEXT_REGS.reverse.length →
      memRead4 cpu1.mem (cpu.regs Reg.sp - 100 + 4 * j)
        = some ((fun j => cpu.regs (CONTEXT_REGS.getD (24 - j) Reg.r0) % 4294967296) j) := by
    intro j hj
    rw [hrlen] at hj
    have h24 : 24 - j < 25 := by omega
    have hsl := hslots (24 - j) h24
    rw [show cpu.regs Reg.sp - 4 * (24 - j + 1) = cpu.regs Reg.sp - 100 + 4 * j
      by omega] at hsl
    rw [hsl]
    rw [hgd CONTEXT_REGS (24 - j) h24]
  have hle25 : cpu.regs Reg.sp - 100 + 4 * CONTEXT_REGS.reverse.length < 2 ^ 64 := by
    rw [hrlen]
    omega
  obtain ⟨regs2, e2, hnotin, hsl2⟩ :=
    popList_spec CONTEXT_REGS.reverse (cpu.regs Reg.sp - 100) cpu1.mem cpu1.regs
      (fun j => cpu.regs (CONTEXT_REGS.getD (24 - j) Reg.r0) % 4294967296) hvals hle25
  have hsp2 : cpu.regs Reg.sp - 100 + 4 * CONTEXT_REGS.reverse.length
      = cpu.regs Reg.sp := by
    rw [hrlen]
    omega
  rw [hsp2] at e2
  have epop : pop_regs cpu1
      = some ⟨RegFile.write regs2 Reg.sp (cpu.regs Reg.sp), cpu1.mem⟩ := by
    unfold pop_regs
    rw [hsp, e2]
    rfl
  have eret : Nvic.return_from_interrupt { nvic with in_interrupt := true } cpu1
      = some ({ nvic with in_interrupt := false },
          ⟨RegFile.write regs2 Reg.sp (cpu.regs Reg.sp), cpu1.mem⟩) := by
    unfold Nvic.return_from_interrupt
    rw [epop]
    rfl
  refine ⟨cpu1, { nvic with in_interrupt := false },
    ⟨RegFile.write regs2 Reg.sp (cpu.regs Reg.sp), cpu1.mem⟩, he, eret, ?_, ?_, rfl⟩
  · intro r hr
    have hrrev : r ∈ CONTEXT_REGS.reverse := by
      rw [List.mem_reverse]
      exact hr
    obtain ⟨⟨n, hn⟩, hget⟩ := List.mem_iff_get.mp hrrev
    have hn25 : n < 25 := by rw [hrlen] at hn; exact hn
    have hside : ∀ k, (hk : k < CONTEXT_REGS.reverse.length) → n < k →
        CONTEXT_REGS.reverse.get ⟨k, hk⟩ ≠ CONTEXT_REGS.reverse.get ⟨n, hn⟩ := by
      intro k hk hnk
      rw [hgd _ k hk, hgd _ n hn]
      exact hrevne ⟨k, by rw [hrlen] at hk; exact hk⟩ ⟨n, hn25⟩ (by simp; omega)
    have hval := hsl2 n hn hside
    rw [hget] at hval
    have hgetd : CONTEXT_REGS.getD (24 - n) Reg.r0 = r := by
      rw [← hrevget ⟨n, hn25⟩]
      rw [← hgd CONTEXT_REGS.reverse n hn]
      exact hget
    rw [hgetd] at hval
    show RegFile.write regs2 Reg.sp (cpu.regs Reg.sp) r = cpu.regs r
    have hrsp : r ≠ Reg.sp := by
      revert hr
      have : ∀ x, x ∈ CONTEXT_REGS → x ≠ Reg.sp := by decide
      exact this r
    unfold RegFile.write
    rw [if_neg hrsp, hval, Nat.mod_eq_of_lt (hbound r hr)]
  · show RegFile.write regs2 Reg.sp (cpu.regs Reg.sp) Reg.sp = cpu.regs Reg.sp
    unfold RegFile.write
    rw [if_pos rfl]

set_option maxRecDepth 100000 in
/-- Witness for C2: the concrete machine of the C1 witness round-trips. -/
theorem claim_C2_witness :
    ((-16 : Int) ≤ 0 ∧ (0 : Int) < 112
      ∧ (0 : Nat) + 4 * ((16 : Int) + 0).toNat < 2 ^ 32
      ∧ memRead4 (Cpu.mk
          (fun r => if r = Reg.sp then 200 else if r = Reg.r0 then 7 else 0)
          (fun a => if a < 300 then (if a = 64 then some 52 else some 0) else none)).mem
          (0 + 4 * ((16 : Int) + 0).toNat) = some 52
      ∧ 100 ≤ (Cpu.mk
          (fun r => if r = Reg.sp then 200 else if r = Reg.r0 then 7 else 0)
          (fun a => if a < 300 then (if a = 64 then some 52 else some 0) else none)).regs
          Reg.sp)
    ∧ ∃ cpu1 nvic2 cpu2,
        Nvic.run_interrupt ⟨none, 0, 0, false⟩
          (Cpu.mk (fun r => if r = Reg.sp then 200 else if r = Reg.r0 then 7 else 0)
            (fun a => if a < 300 then (if a = 64 then some 52 else some 0) else none)) 0 0
          = some ({ (⟨none, 0, 0, false⟩ : Nvic) with in_interrupt := true }, cpu1)
        ∧ Nvic.return_from_interrupt
            { (⟨none, 0, 0, false⟩ : Nvic) with in_interrupt := true } cpu1
          = some (nvic2, cpu2)
        ∧ (∀ r, r ∈ CONTEXT_REGS →
            cpu2.regs r = (Cpu.mk
              (fun r => if r = Reg.sp then 200 else if r = Reg.r0 then 7 else 0)
              (fun a => if a < 300 then (if a = 64 then some 52 else some 0) else none)).regs r)
        ∧ cpu2.regs Reg.sp = (Cpu.mk
            (fun r => if r = Reg.sp then 200 else if r = Reg.r0 then 7 else 0)
            (fun a => if a < 300 then (if a = 64 then some 52 else some 0) else none)).regs
            Reg.sp
        ∧ nvic2.in_interrupt = false :=
  ⟨⟨by decide, by decide, by decide, by decide, by decide⟩,
   claim_C2 ⟨none, 0, 0, false⟩
     (Cpu.mk (fun r => if r = Reg.sp then 200 else if r = Reg.r0 then 7 else 0)
       (fun a => if a < 300 then (if a = 64 then some 52 else some 0) else none))
     0 0 52 (by decide) (by decide) (by decide) (by decide) (by decide) (by decide)
     (by decide) (by decide)⟩

/-! ### Claim C9: fatal propagation of invalid memory accesses -/

theorem push_regs_none (cpu : Cpu) (a : Nat)
    (ha1 : a < cpu.regs Reg.sp) (ha2 : cpu.regs Reg.sp ≤ a + 100)
    (ha3 : cpu.mem a = none) : push_regs cpu = none := by
  unfold push_regs
  cases hpl : pushList cpu.regs CONTEXT_REGS (cpu.regs Reg.sp) cpu.mem with
  | none => rfl
  | some pr =>
      obtain ⟨sp1, m1⟩ := pr
      obtain ⟨hle, _, hmapped⟩ :=
        pushList_mapped cpu.regs CONTEXT_REGS (cpu.regs Reg.sp) cpu.mem sp1 m1 hpl
      have hl : CONTEXT_REGS.length = 25 := rfl
      rw [hl] at hle hmapped
      have := hmapped a ha1 (by omega)
      rw [ha3] at this
      exact absurd this (by simp)

theorem pop_regs_none (cpu : Cpu) (a : Nat)
    (ha1 : cpu.regs Reg.sp ≤ a) (ha2 : a < cpu.regs Reg.sp + 100)
    (ha3 : cpu.mem a = none) : pop_regs cpu = none := by
  unfold pop_regs
  cases hpl : popList CONTEXT_REGS.reverse (cpu.regs Reg.sp) cpu.mem cpu.regs with
  | none => rfl
  | some pr =>
      obtain ⟨sp1, regs1⟩ := pr
      have hl : CONTEXT_REGS.reverse.length = 25 := rfl
      have := popList_mapped CONTEXT_REGS.reverse (cpu.regs Reg.sp) cpu.mem cpu.regs
        sp1 regs1 hpl a ha1 (by rw [hl]; omega)
      rw [ha3] at this
      exact absurd this (by simp)

theorem run_interrupt_none_of_push (nvic : Nvic) (cpu : Cpu) (vt : Nat) (irq : Int)
    (hpush : push_regs cpu = none) :
    Nvic.run_interrupt nvic cpu vt irq = none := by
  unfold Nvic.run_interrupt
  cases hv : read_vector_addr cpu.mem vt irq with
  | none => simp [hv, Option.bind_eq_bind]
  | some v => simp [hv, hpush, Option.bind_eq_bind]

/-- Claim C9: an unmapped byte in the vector-table slot or anywhere in the
25-word stack window makes exception entry fatal (`none`), and an unmapped
byte in the pop window makes exception exit fatal; no default value is ever
substituted. -/
theorem claim_C9 :
    (∀ (nvic : Nvic) (cpu : Cpu) (vt : Nat) (irq : Int) (k : Nat),
      -16 ≤ irq → irq < 112 → vt + 4 * (16 + irq).toNat < 2 ^ 32 →
      k < 4 → cpu.mem (vt + 4 * (16 + irq).toNat + k) = none →
      Nvic.run_interrupt nvic cpu vt irq = none)
    ∧ (∀ (nvic : Nvic) (cpu : Cpu) (vt : Nat) (irq : Int) (a : Nat),
        a < cpu.regs Reg.sp → cpu.regs Reg.sp ≤ a + 100 → cpu.mem a = none →
        Nvic.run_interrupt nvic cpu vt irq = none)
    ∧ (∀ (nvic : Nvic) (cpu : Cpu) (a : Nat),
        cpu.regs Reg.sp ≤ a → a < cpu.regs Reg.sp + 100 → cpu.mem a = none →
        Nvic.return_from_interrupt nvic cpu = none) := by
  refine ⟨?_, ?_, ?_⟩
  · intro nvic cpu vt irq k hirq hirq2 hvt hk hbyte
    have hnone : read_vector_addr cpu.mem vt irq = none := by
      rw [read_vector_addr_eq cpu.mem vt irq hirq hirq2 hvt]
      cases hr : memRead4 cpu.mem (vt + 4 * (16 + irq).toNat) with
      | none => rfl
      | some v =>
          obtain ⟨m0, m1, m2, m3⟩ := memRead4_mapped _ _ _ hr
          interval_cases k
          · rw [Nat.add_zero] at hbyte
            rw [hbyte] at m0
            exact absurd m0 (by simp)
          · rw [hbyte] at m1
            exact absurd m1 (by simp)
          · rw [hbyte] at m2
            exact absurd m2 (by simp)
          · rw [hbyte] at m3
            exact absurd m3 (by simp)
    unfold Nvic.run_interrupt
    simp [hnone, Option.bind_eq_bind]
  · intro nvic cpu vt irq a ha1 ha2 ha3
    exact run_interrupt_none_of_push nvic cpu vt irq (push_regs_none cpu a ha1 ha2 ha3)
  · intro nvic cpu a ha1 ha2 ha3
    unfold Nvic.return_from_interrupt
    simp [pop_regs_none cpu a ha1 ha2 ha3, Option.bind_eq_bind]

/-- Witness for C9: three concrete machines, one with the vector slot
unmapped, one with a hole in the push window, one with a hole in the pop
window. -/
theorem claim_C9_witness :
    (((-16 : Int) ≤ 0 ∧ (0 : Int) < 112
      ∧ (0 : Nat) + 4 * ((16 : Int) + 0).toNat < 2 ^ 32 ∧ (0 : Nat) < 4
      ∧ (Cpu.mk (fun r => if r = Reg.sp then 200 else 0)
          (fun a => if a = 64 then none else some 0)).mem
          (0 + 4 * ((16 : Int) + 0).toNat + 0) = none)
      ∧ Nvic.run_interrupt ⟨none, 0, 0, false⟩
          (Cpu.mk (fun r => if r = Reg.sp then 200 else 0)
            (fun a => if a = 64 then none else some 0)) 0 0 = none)
    ∧ ((150 < (Cpu.mk (fun r => if r = Reg.sp then 200 else 0)
          (fun a => if a = 150 then none else some 0)).regs Reg.sp
      ∧ (Cpu.mk (fun r => if r = Reg.sp then 200 else 0)
          (fun a => if a = 150 then none else some 0)).regs Reg.sp ≤ 150 + 100
      ∧ (Cpu.mk (fun r => if r = Reg.sp then 200 else 0)
          (fun a => if a = 150 then none else some 0)).mem 150 = none)
      ∧ Nvic.run_interrupt ⟨none, 0, 0, false⟩
          (Cpu.mk (fun r => if r = Reg.sp then 200 else 0)
            (fun a => if a = 150 then none else some 0)) 0 0 = none)
    ∧ (((Cpu.mk (fun r => if r = Reg.sp then 100 else 0)
          (fun a => if a = 150 then none else some 0)).regs Reg.sp ≤ 150
      ∧ 150 < (Cpu.mk (fun r => if r = Reg.sp then 100 else 0)
          (fun a => if a = 150 then none else some 0)).regs Reg.sp + 100
      ∧ (Cpu.mk (fun r => if r = Reg.sp then 100 else 0)
          (fun a => if a = 150 then none else some 0)).mem 150 = none)
      ∧ Nvic.return_from_interrupt ⟨none, 0, 0, true⟩
          (Cpu.mk (fun r => if r = Reg.sp then 100 else 0)
            (fun a => if a = 150 then none else some 0)) = none) :=
  ⟨⟨⟨by decide, by decide, by decide, by decide, by decide⟩,
    claim_C9.1 ⟨none, 0, 0, false⟩
      (Cpu.mk (fun r => if r = Reg.sp then 200 else 0)
        (fun a => if a = 64 then none else some 0)) 0 0 0
      (by decide) (by decide) (by decide) (by decide) (by decide)⟩,
   ⟨⟨by decide, by decide, by decide⟩,
    claim_C9.2.1 ⟨none, 0, 0, false⟩
      (Cpu.mk (fun r => if r = Reg.sp then 200 else 0)
        (fun a => if a = 150 then none else some 0)) 0 0 150
      (by decide) (by decide) (by decide)⟩,
   ⟨⟨by decide, by decide, by decide⟩,
    claim_C9.2.2 ⟨none, 0, 0, true⟩
      (Cpu.mk (fun r => if r = Reg.sp then 100 else 0)
        (fun a => if a = 150 then none else some 0)) 150
      (by decide) (by decide) (by decide)⟩⟩

/-! ### Claim C6: single-activity protocol -/

/-- Any successful exception entry marks the controller active and loads
the sentinel return value into LR. -/
theorem run_interrupt_success (nvic : Nvic) (cpu : Cpu) (vt : Nat) (irq : Int)
    (nvic1 : Nvic) (cpu1 : Cpu)
    (h : Nvic.run_interrupt nvic cpu vt irq = some (nvic1, cpu1)) :
    nvic1 = { nvic with in_interrupt := true } ∧ cpu1.regs Reg.lr = 0xFFFFFFFD := by
  unfold Nvic.run_interrupt at h
  cases hv : read_vector_addr cpu.mem vt irq with
  | none => rw [hv] at h; simp [Option.bind_eq_bind] at h
  | some v =>
  rw [hv] at h
  simp only [Option.bind_eq_bind, Option.some_bind] at h
  cases hp : push_regs cpu with
  | none => rw [hp] at h; simp at h
  | some cpup =>
  rw [hp] at h
  simp only [Option.some_bind, Option.pure_def, Option.some_inj, Prod.mk.injEq] at h
  obtain ⟨h1, h2⟩ := h
  refine ⟨h1.symm, ?_⟩
  rw [← h2]
  simp [RegFile.write]

/-- Exception exit clears the active flag. -/
theorem return_from_success (nvic : Nvic) (cpu : Cpu) (nvic2 : Nvic) (cpu2 : Cpu)
    (h : Nvic.return_from_interrupt nvic cpu = some (nvic2, cpu2)) :
    nvic2 = { nvic with in_interrupt := false } := by
  unfold Nvic.return_from_interrupt at h
  cases hp : pop_regs cpu with
  | none => rw [hp] at h; simp [Option.bind_eq_bind] at h
  | some cpup =>
  rw [hp] at h
  simp only [Option.bind_eq_bind, Option.some_bind, Option.pure_def, Option.some_inj,
    Prod.mk.injEq] at h
  exact h.1.symm

/-- Taking a pending interrupt never touches the active flag. -/
theorem get_and_clear_in_interrupt (nvic : Nvic) :
    (Nvic.get_and_clear_next_intr_pending nvic).2.in_interrupt = nvic.in_interrupt := by
  unfold Nvic.get_and_clear_next_intr_pending
  by_cases h : nvic.pending ≠ 0
  · rw [if_pos h]
  · rw [if_neg h]

/-- The SysTick update never touches the active flag. -/
theorem maybe_set_in_interrupt (nvic nvicm : Nvic) (n : Nat)
    (h : Nvic.maybe_set_systick_intr_pending nvic n = some nvicm) :
    nvicm.in_interrupt = nvic.in_interrupt := by
  obtain ⟨sp, last, pend, ii⟩ := nvic
  cases sp with
  | none =>
      replace h : some (⟨none, last, pend, ii⟩ : Nvic) = some nvicm := h
      obtain rfl := Option.some_injective _ h
      rfl
  | some P =>
      replace h : (if n < last then none
          else if P < n - last then
            Nvic.set_intr_pending ⟨some P, n, pend, ii⟩ SYSTICK
          else some ⟨some P, last, pend, ii⟩) = some nvicm := h
      by_cases h1 : n < last
      · rw [if_pos h1] at h
        exact absurd h (by simp)
      rw [if_neg h1] at h
      by_cases h2 : P < n - last
      · rw [if_pos h2, set_intr_pending_eq _ SYSTICK (by decide) (by decide)] at h
        obtain rfl := Option.some_injective _ h
        rfl
      · rw [if_neg h2] at h
        obtain rfl := Option.some_injective _ h
        rfl

/-- Case analysis of one scheduling check: the SysTick update runs first,
then either the check bails out (disabled or active), dispatches the lowest
pending interrupt through exception entry, or finds nothing pending. -/
theorem run_pending_cases (nvic : Nvic) (cpu : Cpu) (vt n : Nat) (nvic1 : Nvic)
    (cpu1 : Cpu)
    (h : Nvic.run_pending_interrupts nvic cpu vt n = some (nvic1, cpu1)) :
    ∃ nvicm, Nvic.maybe_set_systick_intr_pending nvic n = some nvicm
      ∧ nvicm.in_interrupt = nvic.in_interrupt
      ∧ (((are_interrupts_disabled cpu || nvicm.in_interrupt) = true
            ∧ nvic1 = nvicm ∧ cpu1 = cpu)
        ∨ ((are_interrupts_disabled cpu || nvicm.in_interrupt) = false
            ∧ ∃ irq nvic2, Nvic.get_and_clear_next_intr_pending nvicm = (some irq, nvic2)
              ∧ Nvic.run_interrupt nvic2 cpu vt irq = some (nvic1, cpu1))
        ∨ ((are_interrupts_disabled cpu || nvicm.in_interrupt) = false
            ∧ Nvic.get_and_clear_next_intr_pending nvicm = (none, nvic1)
            ∧ cpu1 = cpu)) := by
  unfold Nvic.run_pending_interrupts at h
  cases hm : Nvic.maybe_set_systick_intr_pending nvic n with
  | none => rw [hm] at h; exact absurd h (by simp)
  | some nvicm =>
  rw [hm] at h
  refine ⟨nvicm, rfl, maybe_set_in_interrupt nvic nvicm n hm, ?_⟩
  replace h : (if are_interrupts_disabled cpu || nvicm.in_interrupt
        then some (nvicm, cpu)
        else match Nvic.get_and_clear_next_intr_pending nvicm with
          | (some irq, nvic2) => Nvic.run_interrupt nvic2 cpu vt irq
          | (none, nvic2) => some (nvic2, cpu))
      = some (nvic1, cpu1) := h
  by_cases hc : (are_interrupts_disabled cpu || nvicm.in_interrupt) = true
  · rw [if_pos hc] at h
    simp only [Option.some_inj, Prod.mk.injEq] at h
    exact Or.inl ⟨hc, h.1.symm, h.2.symm⟩
  · rw [if_neg hc] at h
    rw [Bool.not_eq_true] at hc
    cases hg : Nvic.get_and_clear_next_intr_pending nvicm with
    | mk o nvic2 =>
    rw [hg] at h
    cases o with
    | some irq =>
        exact Or.inr (Or.inl ⟨hc, irq, nvic2, rfl, h⟩)
    | none =>
        simp only [Option.some_inj, Prod.mk.injEq] at h
        refine Or.inr (Or.inr ⟨hc, ?_, h.2.symm⟩)
        rw [h.1]

/-- One step of the protocol the emulation driver drives: asserting an
interrupt, one scheduling check, or an exception exit. -/
inductive NvicStep : Nvic × Cpu → Nvic × Cpu → Prop where
  | assert (irq : Int) {s t : Nvic × Cpu} :
      Nvic.set_intr_pending s.1 irq = some t.1 → t.2 = s.2 → NvicStep s t
  | check (vt n : Nat) {s t : Nvic × Cpu} :
      Nvic.run_pending_interrupts s.1 s.2 vt n = some t → NvicStep s t
  | exitI {s t : Nvic × Cpu} :
      Nvic.return_from_interrupt s.1 s.2 = some t → NvicStep s t

/-- Asserting an interrupt never touches the active flag. -/
theorem set_intr_in_interrupt (nvic nvic1 : Nvic) (irq : Int)
    (h : Nvic.set_intr_pending nvic irq = some nvic1) :
    nvic1.in_interrupt = nvic.in_interrupt := by
  by_cases hb : 0 < IRQ_OFFSET + irq ∧ IRQ_OFFSET + irq < 128
  · rw [set_intr_pending_eq nvic irq hb.1 hb.2] at h
    obtain rfl := Option.some_injective _ h
    rfl
  · rw [set_intr_pending_none nvic irq hb] at h
    exact absurd h (by simp)

/-- Claim C6: (1) while the controller is active a scheduling check never
performs a second exception entry — the CPU is returned untouched and the
controller stays active; (2) over any assert / check / exit step, the
active flag becomes true only through a successful exception entry (whose
observable effect includes LR = 0xFFFFFFFD); (3) it becomes false only
through exception exit; (4) once idle again, a still-pending interrupt is
delivered by the next scheduling check (given enabled interrupts and valid
memory). Parts (2) and (3) are proved for every step from every state, so
in particular along any reachable sequence of steps. -/
theorem claim_C6 :
    (∀ (nvic : Nvic) (cpu : Cpu) (vt n : Nat),
      nvic.in_interrupt = true → nvic.last_systick_trigger ≤ n →
      ∃ nvic1, Nvic.run_pending_interrupts nvic cpu vt n = some (nvic1, cpu)
        ∧ nvic1.in_interrupt = true
        ∧ (∀ i, nvic.pending.testBit i = true → nvic1.pending.testBit i = true))
    ∧ (∀ s t : Nvic × Cpu, NvicStep s t →
        s.1.in_interrupt = false → t.1.in_interrupt = true →
        t.2.regs Reg.lr = 0xFFFFFFFD)
    ∧ (∀ s t : Nvic × Cpu, NvicStep s t →
        s.1.in_interrupt = true → t.1.in_interrupt = false →
        Nvic.return_from_interrupt s.1 s.2 = some t)
    ∧ (∀ (nvic : Nvic) (cpu : Cpu) (vt n : Nat) (handler : Nat),
        nvic.in_interrupt = false → are_interrupts_disabled cpu = false →
        nvic.pending ≠ 0 → nvic.pending < 2 ^ 128 →
        nvic.systick_period = none →
        vt + 4 * u128TrailingZeros nvic.pending < 2 ^ 32 →
        memRead4 cpu.mem (vt + 4 * u128TrailingZeros nvic.pending) = some handler →
        100 ≤ cpu.regs Reg.sp →
        (∀ a, a < cpu.regs Reg.sp → cpu.regs Reg.sp - 100 ≤ a → (cpu.mem a).isSome) →
        ∃ nvic1 cpu1, Nvic.run_pending_interrupts nvic cpu vt n = some (nvic1, cpu1)
          ∧ nvic1.in_interrupt = true
          ∧ cpu1.regs Reg.pc = handler
          ∧ cpu1.regs Reg.lr = 0xFFFFFFFD) := by
  refine ⟨?_, ?_, ?_, ?_⟩
  · intro nvic cpu vt n hii hle
    obtain ⟨nvicm, hm, _, hiim, hmono, _⟩ := maybe_set_systick_total nvic n hle
    refine ⟨nvicm, run_pending_disabled_or_active nvic nvicm cpu vt n hm
      (Or.inr (by rw [hiim, hii])), by rw [hiim, hii], hmono⟩
  · intro s t hst hf ht
    cases hst with
    | assert irq hset hcpu =>
        rw [set_intr_in_interrupt s.1 t.1 irq hset, hf] at ht
        exact absurd ht (by simp)
    | check vt n h =>
        obtain ⟨nvicm, hm, hiim, hcases⟩ := run_pending_cases s.1 s.2 vt n t.1 t.2 h
        rcases hcases with ⟨_, h1, _⟩ | ⟨_, irq, nvic2, _, hrun⟩ | ⟨_, hg, _⟩
        · rw [h1, hiim, hf] at ht
          exact absurd ht (by simp)
        · exact (run_interrupt_success nvic2 s.2 vt irq t.1 t.2 hrun).2
        · have := get_and_clear_in_interrupt nvicm
          rw [hg] at this
          rw [this, hiim, hf] at ht
          exact absurd ht (by simp)
    | exitI h =>
        rw [return_from_success s.1 s.2 t.1 t.2 (by rw [h])] at ht
        exact absurd ht (by simp)
  · intro s t hst hf ht
    cases hst with
    | assert irq hset hcpu =>
        rw [set_intr_in_interrupt s.1 t.1 irq hset, hf] at ht
        exact absurd ht (by simp)
    | check vt n h =>
        obtain ⟨nvicm, hm, hiim, hcases⟩ := run_pending_cases s.1 s.2 vt n t.1 t.2 h
        rcases hcases with ⟨_, h1, _⟩ | ⟨hc, irq, nvic2, _, hrun⟩ | ⟨hc, hg, _⟩
        · rw [h1, hiim, hf] at ht
          exact absurd ht (by simp)
        · rw [Bool.or_eq_false_iff] at hc
          rw [hiim, hf] at hc
          exact absurd hc.2 (by simp)
        · rw [Bool.or_eq_false_iff] at hc
          rw [hiim, hf] at hc
          exact absurd hc.2 (by simp)
    | exitI h =>
        exact h
  · intro nvic cpu vt n handler hii hdis hne hlt hper hvt hvec h100 hmap
    obtain ⟨bit, hbiteq, hblt, _, _, heq, _⟩ := get_and_clear_spec nvic hne hlt
    rw [← hbiteq] at hvt hvec
    have hrun0 := run_pending_enabled_idle nvic nvic cpu vt n
      (maybe_set_systick_none nvic n hper) hdis hii
    rw [heq] at hrun0
    replace hrun0 : Nvic.run_pending_interrupts nvic cpu vt n
        = Nvic.run_interrupt
            { nvic with pending := nvic.pending &&& ((2 ^ 128 - 1) ^^^ 2 ^ bit) }
            cpu vt ((bit : Int) - 16) := hrun0
    have hbt : ((16 : Int) + (((bit : Nat) : Int) - 16)).toNat = bit := by omega
    obtain ⟨cpu1, he, hpc, hlr, _, _, _, _, _, _⟩ :=
      run_interrupt_spec
        { nvic with pending := nvic.pending &&& ((2 ^ 128 - 1) ^^^ 2 ^ bit) }
        cpu vt ((bit : Int) - 16) handler (by omega) (by omega)
        (by rw [hbt]; exact hvt) (by rw [hbt]; exact hvec) h100 hmap
    exact ⟨_, cpu1, hrun0.trans he, rfl, hpc, hlr⟩

set_option maxRecDepth 100000 in
/-- Witness for C6: a concrete active state ignores a check; a concrete
idle state with pending irq 5 enters (LR gets the sentinel) via a check
step; a concrete active state exits via an exit step; and after that the
pending interrupt is delivered by a check. -/
theorem claim_C6_witness :
    (∃ nvic1, Nvic.run_pending_interrupts ⟨none, 3, 2 ^ 21, true⟩
        (Cpu.mk (fun r => if r = Reg.sp then 200 else 0)
          (fun a => if a < 300 then some 0 else none)) 0 5
        = some (nvic1, Cpu.mk (fun r => if r = Reg.sp then 200 else 0)
          (fun a => if a < 300 then some 0 else none))
      ∧ nvic1.in_interrupt = true
      ∧ (∀ i, (⟨none, 3, 2 ^ 21, true⟩ : Nvic).pending.testBit i = true →
          nvic1.pending.testBit i = true))
    ∧ (∃ t, NvicStep (⟨none, 0, 2 ^ 21, false⟩,
          Cpu.mk (fun r => if r = Reg.sp then 200 else 0)
            (fun a => if a < 300 then some 0 else none)) t
        ∧ t.1.in_interrupt = true ∧ t.2.regs Reg.lr = 0xFFFFFFFD)
    ∧ (∃ t, NvicStep (⟨none, 0, 0, true⟩, Cpu.mk (fun _ => 1000) (fun _ => some 0)) t
        ∧ t.1.in_interrupt = false
        ∧ Nvic.return_from_interrupt ⟨none, 0, 0, true⟩
            (Cpu.mk (fun _ => 1000) (fun _ => some 0)) = some t)
    ∧ (∃ nvic1 cpu1, Nvic.run_pending_interrupts ⟨none, 0, 2 ^ 21, false⟩
        (Cpu.mk (fun r => if r = Reg.sp then 200 else 0)
          (fun a => if a < 300 then some 0 else none)) 0 9
        = some (nvic1, cpu1)
      ∧ nvic1.in_interrupt = true
      ∧ cpu1.regs Reg.pc = 0
      ∧ cpu1.regs Reg.lr = 0xFFFFFFFD) := by
  refine ⟨?_, ?_, ?_, ?_⟩
  · exact claim_C6.1 ⟨none, 3, 2 ^ 21, true⟩ _ 0 5 rfl (by decide)
  · obtain ⟨nvic1, cpu1, hrun, hin, hpc, hlr⟩ :=
      claim_C6.2.2.2 ⟨none, 0, 2 ^ 21, false⟩
        (Cpu.mk (fun r => if r = Reg.sp then 200 else 0)
          (fun a => if a < 300 then some 0 else none)) 0 9 0
        rfl (by decide) (by decide) (by decide) rfl (by decide) (by decide) (by decide)
        (by decide)
    have hstep := @NvicStep.check 0 9
      (⟨⟨none, 0, 2 ^ 21, false⟩, Cpu.mk (fun r => if r = Reg.sp then 200 else 0)
        (fun a => if a < 300 then some 0 else none)⟩) (nvic1, cpu1) hrun
    exact ⟨(nvic1, cpu1), hstep, hin,
      claim_C6.2.1 _ (nvic1, cpu1) hstep rfl hin⟩
  · have hret : ∃ t, Nvic.return_from_interrupt ⟨none, 0, 0, true⟩
        (Cpu.mk (fun _ => 1000) (fun _ => some 0)) = some t := ⟨_, rfl⟩
    obtain ⟨t, ht⟩ := hret
    have hstep := @NvicStep.exitI
      (⟨⟨none, 0, 0, true⟩, Cpu.mk (fun _ => 1000) (fun _ => some 0)⟩) t ht
    have h1 : t.1 = { (⟨none, 0, 0, true⟩ : Nvic) with in_interrupt := false } :=
      return_from_success _ _ t.1 t.2 ht
    have hfalse : t.1.in_interrupt = false := by rw [h1]
    exact ⟨t, hstep, hfalse, claim_C6.2.2.1 _ t hstep rfl hfalse⟩
  · exact claim_C6.2.2.2 ⟨none, 0, 2 ^ 21, false⟩
      (Cpu.mk (fun r => if r = Reg.sp then 200 else 0)
        (fun a => if a < 300 then some 0 else none)) 0 9 0
      rfl (by decide) (by decide) (by decide) rfl (by decide) (by decide) (by decide)
      (by decide)
